import Mathlib

/-!
# Verification of the architecture-analysis core

Shallow embedding of the architecture analyzer (coupling, duplication,
complexity, circular dependencies, health score) of this repository,
together with proofs settling the specification claims about it.

JavaScript strings are modelled as `List Char`; JavaScript numbers are
modelled as `Nat`, `Int` (with explicit 32-bit wrap-around where the source
relies on it) and `ℚ` (for the real-valued similarity / instability scores,
idealising IEEE doubles by exact rationals).  The module-level content
caches are modelled as explicit state threaded through the engines.
-/

/-- JavaScript string model: a list of UTF-16-ish characters.  All inputs in
this development are ASCII, where Lean `Char` and JS code units agree. -/
abbrev Str := List Char

/-- JS `a.includes(b)` : `b` occurs as a contiguous substring of `a`. -/
def jsIncludes (a b : Str) : Bool :=
  match a with
  | [] => b.isPrefixOf ([] : Str)
  | _ :: rest => b.isPrefixOf a || jsIncludes rest b

/-- JS `a.startsWith(b)`. -/
def jsStartsWith (a b : Str) : Bool := b.isPrefixOf a

/-- JS `a.endsWith(b)`. -/
def jsEndsWith (a b : Str) : Bool := b.reverse.isPrefixOf a.reverse

/-- JS `s.split("\n")` : split on every newline, keeping empty pieces. -/
def jsSplitNl : Str → List Str
  | [] => [[]]
  | c :: rest =>
    let r := jsSplitNl rest
    if c = '\n' then [] :: r
    else (c :: r.headD []) :: r.tail

/-- JS `parts.join(sep)`. -/
def jsJoin (sep : Str) : List Str → Str
  | [] => []
  | [p] => p
  | p :: rest => p ++ sep ++ jsJoin sep rest

/-- Lexicographic comparison of two JS strings by code unit, as used by the
default comparator of `Array.prototype.sort` on strings. -/
def strLe (a b : Str) : Bool :=
  match a, b with
  | [], _ => true
  | _ :: _, [] => false
  | c :: as_, d :: bs => if c.toNat < d.toNat then true
      else if d.toNat < c.toNat then false
      else strLe as_ bs

/-- The ordering used by JS string sort, as a proposition. -/
def StrLe (a b : Str) : Prop := strLe a b = true

instance : DecidableRel StrLe := fun a b => decEq (strLe a b) true

/-- JS `array.sort()` on an array of strings (default comparator).  Any
comparison sort yields this output, so insertion sort is a faithful model. -/
def jsSortStrs (l : List Str) : List Str := List.insertionSort StrLe l

/-- JS `array.indexOf(x)` for an element known to be present (the source only
calls it under an `includes` guard). -/
def jsIndexOf (l : List Str) (x : Str) : Nat :=
  match l with
  | [] => 0
  | y :: ys => if y = x then 0 else jsIndexOf ys x + 1

/-- Node `path.join(repoPath, p)` for the simple shapes used here. -/
def pathJoin (r p : Str) : Str := if r = [] then p else r ++ ('/' :: p)

-- ============================================================
-- Data model (from src/types: ComponentInfo and the analysis records)
-- ============================================================

structure ComponentInfo where
  name : Str
  path : Str
  dependencies : List Str
  linesOfCode : Nat
  deriving DecidableEq, Repr

inductive CouplingScore | good | moderate | high
  deriving DecidableEq, Repr

structure CouplingMetric where
  component : Str
  afferentCoupling : Nat
  efferentCoupling : Nat
  instability : ℚ
  score : CouplingScore
  deriving DecidableEq, Repr

structure DuplicationInstance where
  files : List Str
  lines : Nat
  similarity : ℚ
  snippet : Str
  suggestion : Str
  deriving DecidableEq, Repr

inductive ComplexityScore | simple | moderate | complex | veryComplex
  deriving DecidableEq, Repr

structure ComplexityMetric where
  file : Str
  function : Str
  cyclomaticComplexity : Nat
  cognitiveComplexity : Nat
  linesOfCode : Nat
  score : ComplexityScore
  deriving DecidableEq, Repr

inductive Severity | warning | error
  deriving DecidableEq, Repr

structure CircularDependency where
  cycle : List Str
  severity : Severity
  deriving DecidableEq, Repr

/-- The argument record of calculateHealthScore. -/
structure AnalysisMetrics where
  coupling : List CouplingMetric
  duplication : List DuplicationInstance
  complexity : List ComplexityMetric
  circularDependencies : List CircularDependency
  deriving DecidableEq, Repr

structure ArchitectureAnalysis where
  analyzedAt : Str
  coupling : List CouplingMetric
  duplication : List DuplicationInstance
  complexity : List ComplexityMetric
  circularDependencies : List CircularDependency
  healthScore : Int
  deriving DecidableEq, Repr

-- ============================================================
-- Coupling analyzer (calculateCoupling)
-- ============================================================

/-- Embedding of calculateCoupling: per component, afferent coupling counts
the components whose dependency list has a specifier containing the
component name as a substring (the source filters the full component list,
with no self-exclusion); efferent coupling counts this component's
relative-path dependencies. -/
def calculateCoupling (components : List ComponentInfo) : List CouplingMetric :=
  components.map fun component =>
    let afferentCoupling :=
      (components.filter fun c =>
        c.dependencies.any fun dep => jsIncludes dep component.name).length
    let efferentCoupling :=
      (component.dependencies.filter fun dep => jsStartsWith dep ['.']).length
    let total := afferentCoupling + efferentCoupling
    let instability : ℚ := if total > 0 then (efferentCoupling : ℚ) / (total : ℚ) else 0
    let score : CouplingScore :=
      if instability > 7/10 ∨ efferentCoupling > 10 then .high
      else if instability > 1/2 ∨ efferentCoupling > 5 then .moderate
      else .good
    { component := component.path, afferentCoupling, efferentCoupling, instability, score }

-- ============================================================
-- Health scorer (calculateHealthScore)
-- ============================================================

/-- Embedding of calculateHealthScore: start at 100, subtract the fixed
penalties in source order, then clamp into [0, 100]. -/
def calculateHealthScore (metrics : AnalysisMetrics) : Int :=
  let score : Int := 100
  let highCoupling := (metrics.coupling.filter fun c => c.score == CouplingScore.high).length
  let score := score - highCoupling * 3
  let score := score - metrics.duplication.length * 5
  let veryComplex := (metrics.complexity.filter fun c => c.score == ComplexityScore.veryComplex).length
  let complex := (metrics.complexity.filter fun c => c.score == ComplexityScore.complex).length
  let score := score - veryComplex * 4
  let score := score - complex * 2
  let score := score - metrics.circularDependencies.length * 10
  max 0 (min 100 score)

-- ============================================================
-- Lexical scanners shared by the complexity analyzer
-- ============================================================

/-- A JS regex word character, as used by the boundary assertion \b. -/
def isWordChar (c : Char) : Bool := c.isAlpha || c.isDigit || c = '_'

/-- JS whitespace characters matched by \s (ASCII portion; all inputs here
are ASCII). -/
def isJsSpace (c : Char) : Bool :=
  c = ' ' || c = '\t' || c = '\n' || c = '\r' || c = '\x0b' || c = '\x0c'

/-- Does keyword kw match at the current position, with word boundaries on
both sides?  prevOk records that the character before the position (if any)
was not a word character. -/
def kwMatchHere (kw : Str) (prevOk : Bool) (l : Str) : Bool :=
  prevOk && kw.isPrefixOf l && !(isWordChar ((l.drop kw.length).headD ' '))

/-- The control-structure keywords of the cognitive-complexity regex. -/
def ctrlKeywords : List Str :=
  [['i','f'], ['f','o','r'], ['w','h','i','l','e'],
   ['s','w','i','t','c','h'], ['c','a','t','c','h']]

/-- Test of the regex \b(if|for|while|switch|catch)\b against a line. -/
def testCtrlKw : Bool → Str → Bool
  | _, [] => false
  | prevOk, c :: rest =>
    ctrlKeywords.any (fun kw => kwMatchHere kw prevOk (c :: rest)) ||
      testCtrlKw (!isWordChar c) rest

/-- Count of matches of the global regex (\&\&|\|\|): non-overlapping
occurrences of the two-character operators, scanned left to right. -/
def countLogicalOps : Str → Nat
  | '&' :: '&' :: rest => countLogicalOps rest + 1
  | '|' :: '|' :: rest => countLogicalOps rest + 1
  | _ :: rest => countLogicalOps rest
  | [] => 0

/-- Count of matches of a word-bounded keyword regex such as \bif\b, global
flag.  Matches of one such keyword can never overlap (the interior offers no
word boundary), so a plain position scan gives the JS match count. -/
def countKwMatches (kw : Str) : Bool → Str → Nat
  | _, [] => 0
  | prevOk, c :: rest =>
    (if kwMatchHere kw prevOk (c :: rest) then 1 else 0) +
      countKwMatches kw (!isWordChar c) rest

/-- Match of else\s+if\b (with the leading \b of the source regex) at the
current position: the literal else, at least one whitespace, then if at a
word boundary. -/
def elseIfMatchHere (prevOk : Bool) (l : Str) : Bool :=
  prevOk && (['e','l','s','e'].isPrefixOf l &&
    (let afterElse := l.drop 4
     let ws := afterElse.takeWhile isJsSpace
     let afterWs := afterElse.dropWhile isJsSpace
     decide (ws.length ≥ 1) &&
       kwMatchHere ['i','f'] true afterWs))

/-- Count of matches of \belse\s+if\b (global).  As for the single keywords,
matches cannot overlap, so the position scan counts them. -/
def countElseIf : Bool → Str → Nat
  | _, [] => 0
  | prevOk, c :: rest =>
    (if elseIfMatchHere prevOk (c :: rest) then 1 else 0) +
      countElseIf (!isWordChar c) rest

/-- Count of characters equal to c (the regexes /\?/g, and the building
block for brace counting in the specification model). -/
def countChar (c : Char) (l : Str) : Nat := (l.filter (· = c)).length

/-- Count of non-overlapping occurrences of the two-character run cc, the
global regexes /\&\&/g and /\|\|/g taken separately. -/
def countDoubleChar (c : Char) : Str → Nat
  | a :: b :: rest =>
    if a = c && b = c then countDoubleChar c rest + 1
    else countDoubleChar c (b :: rest)
  | _ => 0

-- ============================================================
-- Complexity analyzer: cyclomatic and cognitive complexity
-- ============================================================

/-- Embedding of calculateCyclomaticComplexity: one plus the total number of
matches of the fixed decision-point patterns over the function source. -/
def calculateCyclomaticComplexity (code : Str) : Nat :=
  1 + countKwMatches ['i','f'] true code
    + countElseIf true code
    + countKwMatches ['f','o','r'] true code
    + countKwMatches ['w','h','i','l','e'] true code
    + countKwMatches ['c','a','s','e'] true code
    + countKwMatches ['c','a','t','c','h'] true code
    + countDoubleChar '&' code
    + countDoubleChar '|' code
    + countChar '?' code

/-- One step of the cognitive-complexity loop body on the state
(complexity, nestingLevel): brace tracking first (once per line containing
an opening brace, once per line containing a closing brace, floored at 0 by
Nat subtraction), then the control-structure bonus of 1 + nesting, then one
point per logical operator occurrence. -/
def cognitiveStep (st : Nat × Nat) (line : Str) : Nat × Nat :=
  let nesting1 := if line.contains '{' then st.2 + 1 else st.2
  let nesting2 := if line.contains '}' then nesting1 - 1 else nesting1
  let complexity1 := if testCtrlKw true line then st.1 + (1 + nesting2) else st.1
  let complexity2 := complexity1 + countLogicalOps line
  (complexity2, nesting2)

/-- Embedding of calculateCognitiveComplexity: fold the per-line step over
the lines of the function source, starting from complexity 0, nesting 0. -/
def calculateCognitiveComplexity (code : Str) : Nat :=
  ((jsSplitNl code).foldl cognitiveStep (0, 0)).1

-- ============================================================
-- Cycle detector (buildDependencyGraph / detectCircularDependencies)
-- ============================================================

/-- The replace of the anchored regex ^\.\.?\/ : strip one leading ./ or
../ from a dependency specifier. -/
def stripRel (d : Str) : Str :=
  match d with
  | '.' :: '.' :: '/' :: rest => rest
  | '.' :: '/' :: rest => rest
  | _ => d

/-- Embedding of buildDependencyGraph: for each component, resolve each
dependency to the first component whose path contains the stripped
specifier, drop unresolved ones; the graph maps component paths to their
resolved dependency paths (later entries overwrite earlier ones, as for a
JS Map). -/
def buildDependencyGraph (components : List ComponentInfo) : Str → Option (List Str) :=
  components.foldl
    (fun graph component =>
      let dependencies := component.dependencies.filterMap fun dep =>
        (components.find? fun c => jsIncludes c.path (stripRel dep)).map (·.path)
      fun k => if k = component.path then some dependencies else graph k)
    (fun _ => none)

/-- JS graph.get(node) || [] -/
def graphGet (graph : Str → Option (List Str)) (node : Str) : List Str :=
  (graph node).getD []

/-- State of the cycle search: the accumulated cycle records (shared across
all starting points) and the visited set of the current start (a JS Set,
queried only for membership). -/
structure DfsState where
  cycles : List CircularDependency
  visited : List Str
  deriving Repr

/-- Embedding of the inner findCycles recursion.  The source sorts the cycle
array in place while building the de-duplication key, so the record that is
pushed holds the sorted array; stored cycles are re-sorted (a no-op) when
compared.  JS recursion depth is bounded by the number of distinct component
paths plus one, so any fuel of at least components.length + 2 makes the fuel
guard unreachable. -/
def findCycles (graph : Str → Option (List Str)) :
    Nat → Str → List Str → DfsState → DfsState
  | 0, _, _, st => st
  | fuel + 1, node, path, st =>
    if path.contains node then
      let cycleStart := jsIndexOf path node
      let cycle := path.drop cycleStart ++ [node]
      let sortedCycle := jsSortStrs cycle
      let cycleKey := jsJoin ['-','>'] sortedCycle
      if st.cycles.any (fun c => jsJoin ['-','>'] (jsSortStrs c.cycle) == cycleKey) then st
      else { st with cycles := st.cycles ++
              [{ cycle := sortedCycle,
                 severity := if sortedCycle.length ≤ 3 then .error else .warning }] }
    else if st.visited.contains node then st
    else
      let st1 : DfsState := { st with visited := st.visited ++ [node] }
      (graphGet graph node).foldl
        (fun st2 neighbor => findCycles graph fuel neighbor (path ++ [node]) st2) st1

/-- Embedding of detectCircularDependencies: run the depth-first search from
every component with a fresh visited set, accumulating the cycle records. -/
def detectCircularDependencies (components : List ComponentInfo) : List CircularDependency :=
  let graph := buildDependencyGraph components
  components.foldl
    (fun cycles component =>
      (findCycles graph (components.length + 2) component.path [] ⟨cycles, []⟩).cycles)
    []

-- ============================================================
-- Specification-side models (definitions following the words of the
-- specification, for comparison against the source embeddings)
-- ============================================================

/-- Modelled from the spec, for the afferent-coupling claim: the number of
components OTHER THAN the given one whose dependency-specifier list contains
a specifier with the component name as a substring. -/
def afferentSpecOther (components : List ComponentInfo) (component : ComponentInfo) : Nat :=
  ((components.filter fun c => c ≠ component).filter fun c =>
    c.dependencies.any fun dep => jsIncludes dep component.name).length

/-- Modelled from the spec, for the cognitive-complexity claim: line scan
whose nesting depth is incremented once FOR EACH opening brace on the line
and decremented once for each closing brace (floored at 0). -/
def cogPerBraceLines : List Str → Nat → Nat
  | [], _ => 0
  | line :: rest, depth =>
    let depth2 := depth + countChar '{' line - countChar '}' line
    (if testCtrlKw true line then 1 + depth2 else 0) + countLogicalOps line +
      cogPerBraceLines rest depth2

def cognitiveSpecPerBrace (code : Str) : Nat := cogPerBraceLines (jsSplitNl code) 0

/-- The amended reading of the cognitive-complexity scan: the nesting depth
moves once per line CONTAINING an opening brace and once per line containing
a closing brace (floored at 0); keyword lines add 1 + depth, logical
operators add 1 each. -/
def cogPerLineLines : List Str → Nat → Nat
  | [], _ => 0
  | line :: rest, depth =>
    let depth1 := if line.contains '{' then depth + 1 else depth
    let depth2 := if line.contains '}' then depth1 - 1 else depth1
    (if testCtrlKw true line then 1 + depth2 else 0) + countLogicalOps line +
      cogPerLineLines rest depth2

def cognitiveSpecPerLine (code : Str) : Nat := cogPerLineLines (jsSplitNl code) 0

/-- Consecutive entries of the walk are graph edges. -/
def edgesOk (graph : Str → Option (List Str)) : List Str → Bool
  | a :: b :: rest => (graphGet graph a).contains b && edgesOk graph (b :: rest)
  | _ => true

/-- Modelled from the spec, for the cycle-field claim: an ordered list of
component paths forming a closed walk (consecutive entries are edges, and
the first path reappears as the last entry). -/
def isClosedWalkB (graph : Str → Option (List Str)) (cycle : List Str) : Bool :=
  match cycle with
  | [] => false
  | x :: _ => edgesOk graph cycle && (cycle.getLastD [] == x)

-- ============================================================
-- Concrete example inputs used by counterexamples and witnesses
-- ============================================================

/-- Three components whose dependency graph is exactly the 3-node cycle
a.ts -> b.ts -> c.ts -> a.ts. -/
def cycleCompA : ComponentInfo :=
  { name := "a".data, path := "a.ts".data, dependencies := ["./b".data], linesOfCode := 1 }

def cycleCompB : ComponentInfo :=
  { name := "b".data, path := "b.ts".data, dependencies := ["./c".data], linesOfCode := 1 }

def cycleCompC : ComponentInfo :=
  { name := "c".data, path := "c.ts".data, dependencies := ["./a".data], linesOfCode := 1 }

def threeCycleCatalog : List ComponentInfo := [cycleCompA, cycleCompB, cycleCompC]

/-- Component closing the 2-node cycle a.ts -> b.ts -> a.ts. -/
def cycleCompB2 : ComponentInfo :=
  { name := "b".data, path := "b.ts".data, dependencies := ["./a".data], linesOfCode := 1 }

def twoCycleCatalog : List ComponentInfo := [cycleCompA, cycleCompB2]

/-- Single component whose own dependency list mentions its own name, for
the afferent-coupling counterexample. -/
def selfCoupledComp : ComponentInfo :=
  { name := "a".data, path := "a.ts".data, dependencies := ["./ab".data], linesOfCode := 1 }

/-- Function body with two opening braces on one line, separating the
per-brace and per-line nesting readings. -/
def bracePairCode : Str := "\x7b\x7b\nif x".data
theorem strLe_total (a b : Str) : strLe a b = true ∨ strLe b a = true := by
  induction a generalizing b with
  | nil => left; rfl
  | cons c as_ ih =>
    cases b with
    | nil => right; rfl
    | cons d bs =>
      simp only [strLe]
      rcases Nat.lt_trichotomy c.toNat d.toNat with h | h | h
      · left; simp [h]
      · have hcd : ¬ c.toNat < d.toNat := by omega
        have hdc : ¬ d.toNat < c.toNat := by omega
        rcases ih bs with h2 | h2
        · left; simp [hcd, hdc, h2]
        · right; simp [hcd, hdc, h2]
      · right; simp [h]

theorem strLe_cons_iff {x y : Char} {as_ bs : Str} :
    strLe (x :: as_) (y :: bs) = true ↔
      x.toNat < y.toNat ∨ (x.toNat = y.toNat ∧ strLe as_ bs = true) := by
  simp only [strLe]
  by_cases h1 : x.toNat < y.toNat
  · simp [h1]
  · by_cases h2 : y.toNat < x.toNat
    · simp [h1, h2]; omega
    · have : x.toNat = y.toNat := by omega
      simp [h1, h2, this]

theorem strLe_trans {a b c : Str} (h1 : strLe a b = true) (h2 : strLe b c = true) :
    strLe a c = true := by
  induction a generalizing b c with
  | nil => rfl
  | cons x as_ ih =>
    cases b with
    | nil => simp [strLe] at h1
    | cons y bs =>
      cases c with
      | nil => simp [strLe] at h2
      | cons z cs =>
        rw [strLe_cons_iff] at h1 h2 ⊢
        rcases h1 with h1 | ⟨h1e, h1r⟩
        · rcases h2 with h2 | ⟨h2e, _⟩
          · left; omega
          · left; omega
        · rcases h2 with h2 | ⟨h2e, h2r⟩
          · left; omega
          · right; exact ⟨by omega, ih h1r h2r⟩

-- ============================================================
-- Similarity: the JS Levenshtein dynamic program and its specification
-- ============================================================

/-- Textbook recursive Levenshtein distance (the specification-side
definition of edit distance). -/
def levRec : Str → Str → Nat
  | [], ys => ys.length
  | x :: xs, [] => (x :: xs).length
  | x :: xs, y :: ys =>
    if x = y then levRec xs ys
    else min (levRec xs ys) (min (levRec (x :: xs) ys) (levRec xs (y :: ys))) + 1
termination_by xs ys => xs.length + ys.length
decreasing_by
  all_goals simp
  all_goals omega

/-- One pass of the inner loop of the source levenshtein function for the
character x of the first string: walking the remaining second string
together with the not-yet-overwritten tail of the costs row, carrying
lastValue; emits the updated row cells in order.  When the two current
characters are equal the new cell copies the old diagonal cell, otherwise
it is 1 + min of diagonal, left and upper cells (the source reads
costs[j-1] and costs[j] before overwriting costs[j-1]). -/
def nextRowAux (x : Char) : Str → List Nat → Nat → List Nat
  | [], _, last => [last]
  | _ :: _, [], last => [last]
  | y :: ys, d :: ds, last =>
    let newValue := if x = y then d else min (min d last) (ds.headD 0) + 1
    last :: nextRowAux x ys ds newValue

/-- The outer loop of the source levenshtein function: iterate over the
characters of the first string with the 1-based index i, updating the costs
row. -/
def levLoop (s2 : Str) : Str → Nat → List Nat → List Nat
  | [], _, costs => costs
  | x :: xs, i, costs => levLoop s2 xs (i + 1) (nextRowAux x s2 costs i)

/-- Embedding of the source levenshtein function: initialise the costs row
to 0..|s2| (the i = 0 outer iteration), run the remaining iterations, and
read costs[|s2|] (the last cell of the row). -/
def levenshteinJS (s1 s2 : Str) : Nat :=
  (levLoop s2 s1 1 (List.range (s2.length + 1))).getLastD 0

/-- Embedding of the source similarity function: orient the pair as
(longer, shorter), return 1.0 for the empty longer string, otherwise the
normalised edit distance (ℚ idealises the IEEE double division). -/
def similarity (s1 s2 : Str) : ℚ :=
  let longer := if s1.length > s2.length then s1 else s2
  let shorter := if s1.length > s2.length then s2 else s1
  if longer.length = 0 then 1
  else ((longer.length : ℚ) - (levenshteinJS longer shorter : ℚ)) / (longer.length : ℚ)

/-- The row of Levenshtein distances from the prefix p to the successive
extensions of u along v; proof scaffolding relating the costs row of the
dynamic program to levRec. -/
def rowFrom (p u : Str) : Str → List Nat
  | [] => [levRec p u]
  | y :: ys => levRec p u :: rowFrom p (u ++ [y]) ys

-- ============================================================
-- Content cache, duplication detector, complexity analyzer and the
-- top-level analyzeArchitecture
-- ============================================================

/-- The filesystem visible to the run: readFile either yields the content
of the path or throws (none). -/
abbrev Fs := Str → Option Str

/-- The module-level caches, keyed by resolved file path.  Parsed trees are
produced by the external @typescript-eslint parser, which the embedding
abstracts as a type parameter plus a parse function argument. -/
structure AnalysisCache (Ast : Type) where
  fileCache : Str → Option Str
  astCache : Str → Option Ast

/-- Both caches empty (the state of the freshly loaded module). -/
def emptyCache {Ast : Type} : AnalysisCache Ast :=
  { fileCache := fun _ => none, astCache := fun _ => none }

/-- Embedding of clearAnalysisCache, as a transformer of the module
state. -/
def clearAnalysisCache {Ast : Type} (_cache : AnalysisCache Ast) : AnalysisCache Ast :=
  emptyCache

/-- Embedding of getCachedFileContent.  The cached value is re-read when it
is the empty string, mirroring the falsy test of the source; a failed read
yields the empty string and caches nothing. -/
def getCachedFileContent (fs : Fs) (filePath : Str) (cache : Str → Option Str) :
    Str × (Str → Option Str) :=
  let doRead : Str × (Str → Option Str) :=
    match fs filePath with
    | some content => (content, fun q => if q = filePath then some content else cache q)
    | none => ([], cache)
  match cache filePath with
  | some cached => if cached ≠ [] then (cached, cache) else doRead
  | none => doRead

/-- JS 32-bit wrap-around (the ToInt32 conversion of the shift and the
bitwise and of hashCode). -/
def toInt32 (n : Int) : Int := (n + 2 ^ 31) % 2 ^ 32 - 2 ^ 31

/-- Embedding of hashCode: hash = toInt32((hash << 5) - hash + charCode)
folded over the characters (the shift coerces to int32; the subtraction and
addition are exact in doubles; hash and hash coerces back to int32). -/
def hashCode (s : Str) : Int :=
  s.foldl (fun hash c => toInt32 (toInt32 (hash * 32) - hash + c.toNat)) 0

/-- One entry of the componentContents array of detectDuplication. -/
structure DupEntry where
  component : ComponentInfo
  content : Str
  lines : List Str
  hash : Int
  deriving Repr, DecidableEq

/-- Sequential reading of the candidate contents through the cache (the
source dispatches the reads through Promise.all; every read consults the
same filesystem, so sequential threading produces the same entries and the
same final cache). -/
def buildEntries (fs : Fs) (repoPath : Str) :
    List ComponentInfo → (Str → Option Str) → List DupEntry × (Str → Option Str)
  | [], cache => ([], cache)
  | c :: rest, cache =>
    let (content, cache1) := getCachedFileContent fs (pathJoin repoPath c.path) cache
    let (entries, cache2) := buildEntries fs repoPath rest cache1
    ({ component := c, content := content, lines := jsSplitNl content,
       hash := hashCode content } :: entries, cache2)

/-- The fixed suggestion text of every duplication instance. -/
def dupSuggestionText : Str :=
  "Envisager d'extraire le code commun dans un composant ou utilitaire partagé".data

/-- The record pushed for a surviving pair: both paths, the smaller line
count, the similarity, and a five-line preview of the first file. -/
def mkDupInstance (a b : DupEntry) (sim : ℚ) : DuplicationInstance :=
  { files := [a.component.path, b.component.path],
    lines := min a.lines.length b.lines.length,
    similarity := sim,
    snippet := jsJoin ['\n'] (a.lines.take 5) ++ '\n' :: ['.', '.', '.'],
    suggestion := dupSuggestionText }

/-- Inner pair loop of detectDuplication for a fixed left entry, walking the
entries to its right: count the comparison, stop the whole detection when
the counter reaches 100000 (error carries the instances collected so far),
then the three cheap filters (line minimum, size ratio, hash distance) and
the similarity threshold. -/
def dupInner (a : DupEntry) :
    List DupEntry → Nat → List DuplicationInstance →
      Except (List DuplicationInstance) (Nat × List DuplicationInstance)
  | [], comparisons, instances => .ok (comparisons, instances)
  | b :: rest, comparisons, instances =>
    let comparisons1 := comparisons + 1
    if comparisons1 ≥ 100000 then .error instances
    else if a.lines.length < 10 ∨ b.lines.length < 10 then
      dupInner a rest comparisons1 instances
    else if ((min a.lines.length b.lines.length : ℚ) /
        (max a.lines.length b.lines.length : ℚ)) < 1/2 then
      dupInner a rest comparisons1 instances
    else if (a.hash - b.hash).natAbs > 100000 then
      dupInner a rest comparisons1 instances
    else
      let sim := similarity a.content b.content
      if sim ≥ 85/100 then
        dupInner a rest comparisons1 (instances ++ [mkDupInstance a b sim])
      else dupInner a rest comparisons1 instances

/-- Outer pair loop: iterate the left entry; an error from the inner loop is
the early return of the whole detection. -/
def dupOuter : List DupEntry → Nat → List DuplicationInstance → List DuplicationInstance
  | [], _, instances => instances
  | a :: rest, comparisons, instances =>
    match dupInner a rest comparisons instances with
    | .error result => result
    | .ok (comparisons1, instances1) => dupOuter rest comparisons1 instances1

/-- The candidate filter of detectDuplication: at least 10 catalog lines and
no test/spec marker in the path. -/
def dupFilter (c : ComponentInfo) : Bool :=
  decide (c.linesOfCode ≥ 10) &&
    !(jsIncludes c.path ".test.".data) && !(jsIncludes c.path ".spec.".data)

/-- Embedding of detectDuplication (the optimized variant used by the
analyzer). -/
def detectDuplication (components : List ComponentInfo) (fs : Fs) (repoPath : Str)
    (cache : Str → Option Str) : List DuplicationInstance × (Str → Option Str) :=
  let largeComponents := components.filter dupFilter
  let (componentContents, cache1) := buildEntries fs repoPath largeComponents cache
  (dupOuter componentContents 0 [], cache1)

/-- A function-like construct recovered from a parsed tree: best-effort
name, source span and line count (produced by the external extractFunctions
walk, abstracted as a function argument). -/
structure FuncInfo where
  name : Str
  body : Str
  lines : Nat

/-- Embedding of analyzeComponentComplexity: cached read, empty content
short-circuits, cached or fresh parse (a parser throw is caught and yields
no metrics), then one metric per extracted function. -/
def analyzeComponentComplexity {Ast : Type} (parseFn : Str → Bool → Option Ast)
    (extractFunctions : Ast → Str → List FuncInfo)
    (component : ComponentInfo) (repoPath : Str) (fs : Fs)
    (cache : AnalysisCache Ast) : List ComplexityMetric × AnalysisCache Ast :=
  let fullPath := pathJoin repoPath component.path
  let (content, fc) := getCachedFileContent fs fullPath cache.fileCache
  let cache1 : AnalysisCache Ast := { cache with fileCache := fc }
  if content = [] then ([], cache1)
  else
    let parsed : Option Ast × AnalysisCache Ast :=
      match cache1.astCache fullPath with
      | some ast => (some ast, cache1)
      | none =>
        match parseFn content (jsEndsWith component.path ['x']) with
        | some ast =>
          (some ast,
            { cache1 with
              astCache := fun q => if q = fullPath then some ast else cache1.astCache q })
        | none => (none, cache1)
    match parsed with
    | (none, cache2) => ([], cache2)
    | (some ast, cache2) =>
      ((extractFunctions ast content).map fun func =>
        let cyclomatic := calculateCyclomaticComplexity func.body
        let cognitive := calculateCognitiveComplexity func.body
        let score : ComplexityScore :=
          if cyclomatic > 20 ∨ cognitive > 15 then .veryComplex
          else if cyclomatic > 10 ∨ cognitive > 7 then .complex
          else if cyclomatic > 5 ∨ cognitive > 3 then .moderate
          else .simple
        { file := component.path, function := func.name,
          cyclomaticComplexity := cyclomatic, cognitiveComplexity := cognitive,
          linesOfCode := func.lines, score := score }, cache2)

/-- Embedding of calculateComplexity: the source processes the components in
parallel batches of 20 and reassembles the metric lists in catalog order;
sequential threading yields that same order and the same cache content. -/
def calculateComplexity {Ast : Type} (parseFn : Str → Bool → Option Ast)
    (extractFunctions : Ast → Str → List FuncInfo) :
    List ComponentInfo → Str → Fs → AnalysisCache Ast →
      List ComplexityMetric × AnalysisCache Ast
  | [], _, _, cache => ([], cache)
  | c :: rest, repoPath, fs, cache =>
    let (metrics, cache1) := analyzeComponentComplexity parseFn extractFunctions c repoPath fs cache
    let (metricsRest, cache2) := calculateComplexity parseFn extractFunctions rest repoPath fs cache1
    (metrics ++ metricsRest, cache2)

/-- Embedding of analyzeArchitecture (optimized variant): the four engines
in source order over the module cache state, then the health score; the
timestamp is an argument (the source takes the wall clock). -/
def analyzeArchitecture {Ast : Type} (parseFn : Str → Bool → Option Ast)
    (extractFunctions : Ast → Str → List FuncInfo) (now : Str)
    (components : List ComponentInfo) (repoPath : Str) (fs : Fs)
    (cache : AnalysisCache Ast) : ArchitectureAnalysis × AnalysisCache Ast :=
  let coupling := calculateCoupling components
  let (duplication, fc) := detectDuplication components fs repoPath cache.fileCache
  let cache1 : AnalysisCache Ast := { cache with fileCache := fc }
  let (complexity, cache2) := calculateComplexity parseFn extractFunctions components repoPath fs cache1
  let circularDependencies := detectCircularDependencies components
  let healthScore := calculateHealthScore
    { coupling := coupling, duplication := duplication, complexity := complexity,
      circularDependencies := circularDependencies }
  ({ analyzedAt := now, coupling := coupling, duplication := duplication,
     complexity := complexity, circularDependencies := circularDependencies,
     healthScore := healthScore }, cache2)

-- ============================================================
-- Derived characterizations used in the duplication proofs
-- ============================================================

/-- A cache agrees with the filesystem: every entry holds the content the
filesystem serves for that path. -/
def cacheConsistent (fs : Fs) (cache : Str → Option Str) : Prop :=
  ∀ p c, cache p = some c → fs p = some c

/-- The entry detectDuplication builds for a component when the cache agrees
with the filesystem: the content the filesystem serves, or empty on a read
failure. -/
def pureEntry (fs : Fs) (repoPath : Str) (c : ComponentInfo) : DupEntry :=
  let content := (fs (pathJoin repoPath c.path)).getD []
  { component := c, content := content, lines := jsSplitNl content,
    hash := hashCode content }

/-- What the pair (a, b) contributes when it is examined: the filter
cascade of the inner loop as a partial function. -/
def pairEmit (a b : DupEntry) : Option DuplicationInstance :=
  if a.lines.length < 10 ∨ b.lines.length < 10 then none
  else if ((min a.lines.length b.lines.length : ℚ) /
      (max a.lines.length b.lines.length : ℚ)) < 1/2 then none
  else if (a.hash - b.hash).natAbs > 100000 then none
  else
    let sim := similarity a.content b.content
    if sim ≥ 85/100 then some (mkDupInstance a b sim) else none

/-- All ordered pairs (i, j) with i before j, in loop order. -/
def allPairs {α : Type} : List α → List (α × α)
  | [] => []
  | a :: rest => rest.map (fun b => (a, b)) ++ allPairs rest

/-- Number of pairs examined when no cap is reached. -/
def pairsCount {α : Type} : List α → Nat
  | [] => 0
  | _ :: rest => rest.length + pairsCount rest

-- ============================================================
-- Concrete inputs for the duplication and cache claims
-- ============================================================

/-- Ten lines of content (nine newlines). -/
def tenLines : Str :=
  ['l', '\n', 'l', '\n', 'l', '\n', 'l', '\n', 'l', '\n',
   'l', '\n', 'l', '\n', 'l', '\n', 'l', '\n', 'l']

/-- Short filler component number i: a distinct dot-free path and a
one-line file, but 10 catalog lines so the candidate filter keeps it. -/
def shortComp (i : Nat) : ComponentInfo :=
  { name := "s".data, path := List.replicate (i + 1) 'a', dependencies := [],
    linesOfCode := 10 }

/-- The two character-identical target components of the cap
counterexample. -/
def capT1 : ComponentInfo :=
  { name := "t".data, path := "b".data, dependencies := [], linesOfCode := 10 }

def capT2 : ComponentInfo :=
  { name := "t".data, path := "c".data, dependencies := [], linesOfCode := 10 }

/-- 447 filler components followed by the two identical targets: 100576
candidate pairs, so the pair (capT1, capT2) lies beyond the 100000
comparison cap. -/
def capCatalog : List ComponentInfo := (List.range 447).map shortComp ++ [capT1, capT2]

/-- The filesystem of the cap counterexample: the two targets share ten
identical lines, every other path is a one-line file. -/
def capFs : Fs := fun p =>
  if p = pathJoin "r".data "b".data then some tenLines
  else if p = pathJoin "r".data "c".data then some tenLines
  else some ['x']

/-- Components and filesystems of the cache-persistence counterexample. -/
def c8CompA : ComponentInfo :=
  { name := "a".data, path := "fa".data, dependencies := [], linesOfCode := 10 }

def c8CompB : ComponentInfo :=
  { name := "b".data, path := "fb".data, dependencies := [], linesOfCode := 10 }

/-- First-run filesystem: both files hold the ten identical lines. -/
def c8Fs1 : Fs := fun p =>
  if p = pathJoin "r".data "fa".data then some tenLines
  else if p = pathJoin "r".data "fb".data then some tenLines
  else none

/-- Second-run filesystem: fa changed to a single line, fb unchanged. -/
def c8Fs2 : Fs := fun p =>
  if p = pathJoin "r".data "fa".data then some ['x']
  else if p = pathJoin "r".data "fb".data then some tenLines
  else none

/-- Trivial parser instantiation (every parse attempt throws). -/
def noParse : Str → Bool → Option Unit := fun _ _ => none

/-- Trivial extraction instantiation. -/
def noExtract : Unit → Str → List FuncInfo := fun _ _ => []

/-- Component with an unreadable file, for the degradation witness. -/
def c9Comp : ComponentInfo :=
  { name := "u".data, path := "fu".data, dependencies := [], linesOfCode := 10 }

-- ============================================================
-- Theorems
-- ============================================================

theorem foldl_cycles_invariant {α : Type} (P : CircularDependency → Prop)
    (f : DfsState → α → DfsState) (l : List α)
    (hf : ∀ st x, (∀ c ∈ st.cycles, P c) → ∀ c ∈ (f st x).cycles, P c) :
    ∀ st : DfsState, (∀ c ∈ st.cycles, P c) → ∀ c ∈ (l.foldl f st).cycles, P c := by
  induction l with
  | nil => intro st h; exact h
  | cons x xs ih => intro st h; exact ih (f st x) (hf st x h)

theorem findCycles_cycles_sorted (graph : Str → Option (List Str)) (fuel : Nat) :
    ∀ (node : Str) (path : List Str) (st : DfsState),
      (∀ c ∈ st.cycles, List.Sorted StrLe c.cycle) →
      ∀ c ∈ (findCycles graph fuel node path st).cycles, List.Sorted StrLe c.cycle := by
  induction fuel with
  | zero => intro _ _ st h; exact h
  | succ fuel ih =>
    intro node path st h
    rw [findCycles]
    by_cases hp : path.contains node
    · simp only [hp, if_true]
      by_cases hdup : st.cycles.any (fun c =>
          jsJoin ['-','>'] (jsSortStrs c.cycle) ==
            jsJoin ['-','>'] (jsSortStrs (path.drop (jsIndexOf path node) ++ [node])))
      · simp only [hdup, if_true]; exact h
      · simp only [hdup, if_false]
        intro c hc
        rcases List.mem_append.mp hc with hc | hc
        · exact h c hc
        · rw [List.mem_singleton] at hc
          subst hc
          exact @List.sorted_insertionSort Str StrLe _
            ⟨fun a b => strLe_total a b⟩ ⟨fun _ _ _ => strLe_trans⟩ _
    · simp only [hp, if_false]
      by_cases hv : st.visited.contains node
      · simp only [hv, if_true]; exact h
      · simp only [hv, if_false]
        exact foldl_cycles_invariant _ _ _
          (fun st2 nb h2 => ih nb (path ++ [node]) st2 h2) _ h

theorem detectCircularDependencies_sorted (components : List ComponentInfo) :
    ∀ c ∈ detectCircularDependencies components, List.Sorted StrLe c.cycle := by
  rw [detectCircularDependencies]
  have main : ∀ (l : List ComponentInfo) (acc : List CircularDependency),
      (∀ c ∈ acc, List.Sorted StrLe c.cycle) →
      ∀ c ∈ l.foldl (fun cycles component =>
          (findCycles (buildDependencyGraph components) (components.length + 2)
            component.path [] ⟨cycles, []⟩).cycles) acc,
        List.Sorted StrLe c.cycle := by
    intro l
    induction l with
    | nil => intro acc h; exact h
    | cons x xs ih =>
      intro acc h
      exact ih _ (findCycles_cycles_sorted _ _ _ _ _ h)
  exact main components [] (by intro c hc; cases hc)

/-- C1.  The claim states that a 3-node dependency cycle is reported exactly
once with severity error.  On the catalog whose graph is exactly the cycle
a.ts -> b.ts -> c.ts -> a.ts, the detector in fact reports the cycle three
times (the sorted de-duplication key repeats the start node, so discoveries
from different starting points never merge), and each record has severity
warning (the recorded array has length 4, and only arrays of length at most
3 are classified error). -/
theorem C1_threeCycle_counterexample :
    (detectCircularDependencies threeCycleCatalog).length = 3 ∧
    (∀ c ∈ detectCircularDependencies threeCycleCatalog, c.severity = Severity.warning) ∧
    ¬ ((detectCircularDependencies threeCycleCatalog).length = 1 ∧
       ∀ c ∈ detectCircularDependencies threeCycleCatalog, c.severity = Severity.error) := by
  decide

/-- C1 (amended).  On the catalog whose dependency graph is exactly the
3-node cycle a.ts -> b.ts -> c.ts -> a.ts, the detector reports the cycle
once per starting node - three records, one per rotation - each holding the
lexicographically sorted walk with the start node duplicated, and each with
severity warning. -/
theorem C1_threeCycle_amended :
    detectCircularDependencies threeCycleCatalog =
      [{ cycle := ["a.ts".data, "a.ts".data, "b.ts".data, "c.ts".data],
         severity := Severity.warning },
       { cycle := ["a.ts".data, "b.ts".data, "b.ts".data, "c.ts".data],
         severity := Severity.warning },
       { cycle := ["a.ts".data, "b.ts".data, "c.ts".data, "c.ts".data],
         severity := Severity.warning }] := by
  decide

/-- C2.  The claim states that every reported cycle field is an ordered
closed walk (consecutive entries are edges, first path reappears last).  On
the 2-node cycle a.ts -> b.ts -> a.ts the first reported record holds
[a.ts, a.ts, b.ts]: its consecutive entries a.ts, a.ts are not an edge and
its first entry does not reappear last, because the walk was sorted in
place before being stored. -/
theorem C2_closedWalk_counterexample :
    ¬ (∀ c ∈ detectCircularDependencies twoCycleCatalog,
        isClosedWalkB (buildDependencyGraph twoCycleCatalog) c.cycle = true) := by
  decide

/-- C2 (amended).  Every reported cycle field is the lexicographically
sorted list of the member paths of the detected closed walk (with the walk
start appearing twice), not the walk order itself: the stored list is always
sorted under the JS string order, as witnessed in full on the 2-node cycle
catalog. -/
theorem C2_cycleField_sorted_amended :
    (∀ components : List ComponentInfo,
      ∀ c ∈ detectCircularDependencies components, List.Sorted StrLe c.cycle) ∧
    detectCircularDependencies twoCycleCatalog =
      [{ cycle := ["a.ts".data, "a.ts".data, "b.ts".data], severity := Severity.error },
       { cycle := ["a.ts".data, "b.ts".data, "b.ts".data], severity := Severity.error }] :=
  ⟨detectCircularDependencies_sorted, by decide⟩

/-- Witness for C2 (amended): the sortedness statement applied to the
concrete 2-cycle catalog and its first reported record. -/
theorem C2_cycleField_sorted_witness :
    List.Sorted StrLe ["a.ts".data, "a.ts".data, "b.ts".data] :=
  C2_cycleField_sorted_amended.1 twoCycleCatalog
    (CircularDependency.mk ["a.ts".data, "a.ts".data, "b.ts".data] Severity.error)
    (by decide)

/-- C6.  The claim states that afferent coupling counts the components
OTHER THAN C whose dependency list mentions the name of C.  For a single
component whose own dependency ./ab contains its own name a, the source
counts the component itself: it reports afferent coupling 1 where the claim
demands 0. -/
theorem C6_afferent_self_counterexample :
    ¬ ((calculateCoupling [selfCoupledComp]).map (·.afferentCoupling) =
        [afferentSpecOther [selfCoupledComp] selfCoupledComp]) := by
  decide

/-- C6 (amended).  For the component at any index i, the reported afferent
coupling equals the number of ALL components (the component itself
included) whose dependency-specifier list contains a specifier having the
component name as a substring, and the reported efferent coupling equals
the number of its dependency specifiers that start with a period. -/
theorem C6_coupling_counts_amended (components : List ComponentInfo) (i : Nat)
    (h : i < components.length) :
    ∃ hm : i < (calculateCoupling components).length,
      ((calculateCoupling components).get ⟨i, hm⟩).afferentCoupling =
        (components.countP fun c =>
          c.dependencies.any fun dep => jsIncludes dep (components.get ⟨i, h⟩).name) ∧
      ((calculateCoupling components).get ⟨i, hm⟩).efferentCoupling =
        ((components.get ⟨i, h⟩).dependencies.countP fun dep => jsStartsWith dep ['.']) := by
  have hlen : (calculateCoupling components).length = components.length := by
    simp [calculateCoupling]
  refine ⟨by omega, ?_, ?_⟩ <;>
    simp [calculateCoupling, List.countP_eq_length_filter]

/-- Witness for C6 (amended), at the single-component catalog. -/
theorem C6_coupling_counts_witness :
    ∃ hm : 0 < (calculateCoupling [selfCoupledComp]).length,
      ((calculateCoupling [selfCoupledComp]).get ⟨0, hm⟩).afferentCoupling =
        ([selfCoupledComp].countP fun c =>
          c.dependencies.any fun dep =>
            jsIncludes dep (([selfCoupledComp] : List ComponentInfo).get ⟨0, by decide⟩).name) ∧
      ((calculateCoupling [selfCoupledComp]).get ⟨0, hm⟩).efferentCoupling =
        ((([selfCoupledComp] : List ComponentInfo).get ⟨0, by decide⟩).dependencies.countP
          fun dep => jsStartsWith dep ['.']) :=
  C6_coupling_counts_amended [selfCoupledComp] 0 (by decide)

/-- C3.  The health score equals 100 minus 3 per high-coupling component,
5 per duplication instance, 4 per very-complex function, 2 per complex
function and 10 per circular-dependency record, clamped to [0, 100]; it is
always within [0, 100], and equals 100 when there are no findings. -/
theorem C3_healthScore_formula (m : AnalysisMetrics) :
    calculateHealthScore m =
      max 0 (min 100 ((100 : Int)
        - 3 * (m.coupling.countP fun c => c.score == CouplingScore.high)
        - 5 * m.duplication.length
        - 4 * (m.complexity.countP fun c => c.score == ComplexityScore.veryComplex)
        - 2 * (m.complexity.countP fun c => c.score == ComplexityScore.complex)
        - 10 * m.circularDependencies.length)) ∧
    (0 ≤ calculateHealthScore m ∧ calculateHealthScore m ≤ 100) ∧
    ((m.coupling.countP fun c => c.score == CouplingScore.high) = 0 →
      m.duplication = [] →
      (m.complexity.countP fun c => c.score == ComplexityScore.veryComplex) = 0 →
      (m.complexity.countP fun c => c.score == ComplexityScore.complex) = 0 →
      m.circularDependencies = [] →
      calculateHealthScore m = 100) := by
  refine ⟨?_, ⟨?_, ?_⟩, ?_⟩
  · simp only [calculateHealthScore, List.countP_eq_length_filter]
    omega
  · simp only [calculateHealthScore]; omega
  · simp only [calculateHealthScore]; omega
  · intro h1 h2 h3 h4 h5
    simp only [List.countP_eq_length_filter] at h1 h3 h4
    simp only [calculateHealthScore, h1, h2, h3, h4, h5]
    decide

/-- Witness for C3 at an empty-findings input. -/
theorem C3_healthScore_formula_witness :
    calculateHealthScore ⟨[], [], [], []⟩ =
      max 0 (min 100 ((100 : Int)
        - 3 * (([] : List CouplingMetric).countP fun c => c.score == CouplingScore.high)
        - 5 * ([] : List DuplicationInstance).length
        - 4 * (([] : List ComplexityMetric).countP fun c => c.score == ComplexityScore.veryComplex)
        - 2 * (([] : List ComplexityMetric).countP fun c => c.score == ComplexityScore.complex)
        - 10 * ([] : List CircularDependency).length)) ∧
    calculateHealthScore ⟨[], [], [], []⟩ = 100 :=
  ⟨(C3_healthScore_formula ⟨[], [], [], []⟩).1,
   (C3_healthScore_formula ⟨[], [], [], []⟩).2.2 (by decide) rfl (by decide) (by decide) rfl⟩

/-- C10.  The health score never increases when one more finding is
appended: a high-coupling metric, a duplication instance, a complex or
very-complex function metric, or a circular-dependency record. -/
theorem C10_healthScore_monotone (m : AnalysisMetrics)
    (cm : CouplingMetric) (di : DuplicationInstance)
    (xm : ComplexityMetric) (cd : CircularDependency) :
    (cm.score = CouplingScore.high →
      calculateHealthScore { m with coupling := m.coupling ++ [cm] } ≤ calculateHealthScore m) ∧
    (calculateHealthScore { m with duplication := m.duplication ++ [di] } ≤ calculateHealthScore m) ∧
    ((xm.score = ComplexityScore.complex ∨ xm.score = ComplexityScore.veryComplex) →
      calculateHealthScore { m with complexity := m.complexity ++ [xm] } ≤ calculateHealthScore m) ∧
    (calculateHealthScore { m with circularDependencies := m.circularDependencies ++ [cd] } ≤
      calculateHealthScore m) := by
  refine ⟨?_, ?_, ?_, ?_⟩
  · intro hs
    simp only [calculateHealthScore, List.filter_append, List.length_append, hs]
    simp only [List.filter_cons, List.filter_nil]
    split <;> simp_all <;> omega
  · simp only [calculateHealthScore, List.length_append]
    omega
  · intro hs
    simp only [calculateHealthScore, List.filter_append, List.filter_cons, List.filter_nil]
    rcases hs with hs | hs <;> rw [hs] <;> simp <;> omega
  · simp only [calculateHealthScore, List.length_append]
    omega

/-- Witness for C10, at concrete findings appended to the empty record. -/
theorem C10_healthScore_monotone_witness :
    (calculateHealthScore (AnalysisMetrics.mk
        ([] ++ [CouplingMetric.mk [] 0 0 0 CouplingScore.high]) [] [] []) ≤
      calculateHealthScore (AnalysisMetrics.mk [] [] [] [])) ∧
    (calculateHealthScore (AnalysisMetrics.mk []
        ([] ++ [DuplicationInstance.mk [] 0 1 [] []]) [] []) ≤
      calculateHealthScore (AnalysisMetrics.mk [] [] [] [])) ∧
    (calculateHealthScore (AnalysisMetrics.mk [] []
        ([] ++ [ComplexityMetric.mk [] [] 0 0 0 ComplexityScore.complex]) []) ≤
      calculateHealthScore (AnalysisMetrics.mk [] [] [] [])) ∧
    (calculateHealthScore (AnalysisMetrics.mk [] [] []
        ([] ++ [CircularDependency.mk [] Severity.warning])) ≤
      calculateHealthScore (AnalysisMetrics.mk [] [] [] [])) := by
  have h := C10_healthScore_monotone (AnalysisMetrics.mk [] [] [] [])
    (CouplingMetric.mk [] 0 0 0 CouplingScore.high)
    (DuplicationInstance.mk [] 0 1 [] [])
    (ComplexityMetric.mk [] [] 0 0 0 ComplexityScore.complex)
    (CircularDependency.mk [] Severity.warning)
  exact ⟨h.1 rfl, h.2.1, h.2.2.1 (Or.inl rfl), h.2.2.2⟩

/-- C7.  The claim describes the nesting depth as moving once per brace.
On a function body whose first line holds two opening braces, the source
(which moves the depth once per line containing a brace) reports cognitive
complexity 2 while the per-brace scan of the claim yields 3. -/
theorem C7_cognitive_perBrace_counterexample :
    calculateCognitiveComplexity bracePairCode = 2 ∧
    cognitiveSpecPerBrace bracePairCode = 3 ∧
    calculateCognitiveComplexity bracePairCode ≠ cognitiveSpecPerBrace bracePairCode := by
  decide

/-- C7 (amended).  The cognitive complexity equals the line-by-line scan in
which the nesting depth is incremented once per line containing an opening
brace and decremented once per line containing a closing brace (floored at
0), control-structure keyword lines add 1 + depth, and each logical AND/OR
occurrence adds 1. -/
theorem C7_cognitive_perLine_amended (code : Str) :
    calculateCognitiveComplexity code = cognitiveSpecPerLine code := by
  have main : ∀ (lines : List Str) (c d : Nat),
      (lines.foldl cognitiveStep (c, d)).1 = c + cogPerLineLines lines d := by
    intro lines
    induction lines with
    | nil => intro c d; simp [cogPerLineLines]
    | cons line rest ih =>
      intro c d
      rw [List.foldl_cons, cogPerLineLines]
      rw [show cognitiveStep (c, d) line =
        ((if testCtrlKw true line then c + (1 +
            (if line.contains '}' then (if line.contains '{' then d + 1 else d) - 1
             else (if line.contains '{' then d + 1 else d))) else c) + countLogicalOps line,
          (if line.contains '}' then (if line.contains '{' then d + 1 else d) - 1
           else (if line.contains '{' then d + 1 else d))) from rfl]
      rw [ih]
      split <;> omega

  rw [calculateCognitiveComplexity, cognitiveSpecPerLine, main]
  omega

theorem levRec_nil_left (ys : Str) : levRec [] ys = ys.length := by
  simp [levRec]

theorem levRec_nil_right (xs : Str) : levRec xs [] = xs.length := by
  cases xs <;> simp [levRec]

theorem levRec_cons_cons (x y : Char) (xs ys : Str) :
    levRec (x :: xs) (y :: ys) =
      if x = y then levRec xs ys
      else min (levRec xs ys) (min (levRec (x :: xs) ys) (levRec xs (y :: ys))) + 1 := by
  rw [levRec]

theorem levRec_self (s : Str) : levRec s s = 0 := by
  induction s with
  | nil => simp [levRec]
  | cons x xs ih => simp [levRec_cons_cons, ih]

theorem levRec_comm : ∀ s t : Str, levRec s t = levRec t s
  | [], t => by rw [levRec_nil_left, levRec_nil_right]
  | s, [] => by rw [levRec_nil_left, levRec_nil_right]
  | x :: xs, y :: ys => by
    rw [levRec_cons_cons, levRec_cons_cons]
    have h1 := levRec_comm xs ys
    have h2 := levRec_comm (x :: xs) ys
    have h3 := levRec_comm xs (y :: ys)
    by_cases hxy : x = y
    · subst hxy; simp [h1]
    · have hyx : ¬ y = x := fun h => hxy h.symm
      rw [if_neg hxy, if_neg hyx, h1, h2, h3]
      omega
termination_by s t => s.length + t.length
decreasing_by
  all_goals simp
  all_goals omega

theorem min9_transpose (a1 a2 a3 a4 a5 a6 a7 a8 a9 : Nat) :
    min (min a1 (min a2 a3)) (min (min a4 (min a5 a6)) (min a7 (min a8 a9))) =
    min (min a1 (min a4 a7)) (min (min a2 (min a5 a8)) (min a3 (min a6 a9))) := by
  apply le_antisymm <;>
    (simp only [le_min_iff]; repeat' apply And.intro) <;>
    omega

set_option maxHeartbeats 1600000 in
theorem levRec_snoc : ∀ (p u : Str) (x y : Char),
    levRec (p ++ [x]) (u ++ [y]) =
      if x = y then levRec p u
      else min (levRec p u) (min (levRec (p ++ [x]) u) (levRec p (u ++ [y]))) + 1
  | [], [], x, y => by
    simp only [List.nil_append, levRec_cons_cons, levRec_nil_left, levRec_nil_right]
  | [], b :: us, x, y => by
    have IH := levRec_snoc [] us x y
    simp only [List.nil_append] at IH ⊢
    simp only [List.cons_append, levRec_cons_cons, IH, levRec_nil_left, levRec_nil_right,
      List.length_append, List.length_cons, List.length_nil]
    split_ifs <;> omega
  | a :: ps, [], x, y => by
    have IH := levRec_snoc ps [] x y
    simp only [List.nil_append] at IH ⊢
    simp only [List.cons_append, levRec_cons_cons, IH, levRec_nil_left, levRec_nil_right,
      List.length_append, List.length_cons, List.length_nil]
    split_ifs <;> omega
  | a :: ps, b :: us, x, y => by
    have IH1 := levRec_snoc ps us x y
    have IH2 := levRec_snoc (a :: ps) us x y
    have IH3 := levRec_snoc ps (b :: us) x y
    simp only [List.cons_append] at IH2 IH3 ⊢
    simp only [levRec_cons_cons, IH1, IH2, IH3]
    by_cases hxy : x = y <;> by_cases hab : a = b <;>
      simp only [hxy, hab, if_true, if_false, eq_self_iff_true]
    simp only [min_add_add_right]
    rw [min9_transpose]
termination_by p u => p.length + u.length
decreasing_by
  all_goals simp
  all_goals omega

theorem rowFrom_headD (p u : Str) (v : Str) (d : Nat) :
    (rowFrom p u v).headD d = levRec p u := by
  cases v <;> simp [rowFrom]

theorem rowFrom_getLastD (p : Str) : ∀ (v u : Str) (d : Nat),
    (rowFrom p u v).getLastD d = levRec p (u ++ v) := by
  intro v
  induction v with
  | nil => intro u d; simp [rowFrom]
  | cons y ys ih =>
    intro u d
    rw [rowFrom, List.getLastD_cons, ih (u ++ [y]), List.append_assoc]
    rfl

theorem nextRowAux_spec (x : Char) : ∀ (v p u : Str),
    nextRowAux x v (rowFrom p u v) (levRec (p ++ [x]) u) = rowFrom (p ++ [x]) u v := by
  intro v
  induction v with
  | nil => intro p u; simp [rowFrom, nextRowAux]
  | cons y ys ih =>
    intro p u
    rw [rowFrom, rowFrom, nextRowAux]
    have hhead : (rowFrom p (u ++ [y]) ys).headD 0 = levRec p (u ++ [y]) :=
      rowFrom_headD p (u ++ [y]) ys 0
    have hnew : (if x = y then levRec p u
        else min (min (levRec p u) (levRec (p ++ [x]) u))
          ((rowFrom p (u ++ [y]) ys).headD 0) + 1) = levRec (p ++ [x]) (u ++ [y]) := by
      rw [hhead, levRec_snoc p u x y]
      by_cases hxy : x = y
      · simp [hxy]
      · simp only [hxy, if_false]
        omega
    rw [hnew, ih p (u ++ [y])]

theorem levLoop_spec (s2 : Str) : ∀ (xs p : Str),
    levLoop s2 xs (p.length + 1) (rowFrom p [] s2) = rowFrom (p ++ xs) [] s2 := by
  intro xs
  induction xs with
  | nil => intro p; simp [levLoop]
  | cons x xs ih =>
    intro p
    rw [levLoop]
    have harg : nextRowAux x s2 (rowFrom p [] s2) (p.length + 1) = rowFrom (p ++ [x]) [] s2 := by
      have hlast : p.length + 1 = levRec (p ++ [x]) [] := by
        rw [levRec_nil_right]; simp
      rw [hlast]
      exact nextRowAux_spec x s2 p []
    rw [harg]
    have h2 : p.length + 1 + 1 = (p ++ [x]).length + 1 := by simp
    rw [h2, ih (p ++ [x]), List.append_assoc]
    rfl

theorem rowFrom_nil_eq_range' : ∀ (v u : Str),
    rowFrom [] u v = List.range' u.length (v.length + 1) := by
  intro v
  induction v with
  | nil => intro u; simp [rowFrom, levRec_nil_left, List.range']
  | cons y ys ih =>
    intro u
    rw [rowFrom, ih (u ++ [y]), levRec_nil_left]
    simp [List.range', List.length_append]

theorem levenshteinJS_eq_levRec (s1 s2 : Str) : levenshteinJS s1 s2 = levRec s1 s2 := by
  rw [levenshteinJS]
  have hrow : List.range (s2.length + 1) = rowFrom [] [] s2 := by
    rw [rowFrom_nil_eq_range' s2 [], List.range_eq_range']
    rfl
  rw [hrow]
  have h1 : (1 : Nat) = ([] : Str).length + 1 := by simp
  rw [h1, levLoop_spec s2 s1 [], List.nil_append]
  rw [rowFrom_getLastD s1 s2 [] 0, List.nil_append]

/-- C4.  The similarity function returns (max(|a|,|b|) - d(a,b)) /
max(|a|,|b|) where d is the Levenshtein distance (stated for a non-empty
longer string, the case in which the formula denotes; the source computes
the distance of (longer, shorter), which equals d(a,b) by symmetry of the
distance); consequently similarity(x,x) = 1 for every x and
similarity of two empty strings is 1. -/
theorem C4_similarity_levenshtein :
    (∀ a b : Str, 0 < max a.length b.length →
      similarity a b =
        ((max a.length b.length : ℚ) - (levRec a b : ℚ)) / (max a.length b.length : ℚ)) ∧
    (∀ x : Str, similarity x x = 1) ∧
    similarity [] [] = 1 := by
  refine ⟨?_, ?_, ?_⟩
  · intro a b hmax
    rw [similarity]
    by_cases hab : a.length > b.length
    · have hm : max a.length b.length = a.length := Nat.max_eq_left (Nat.le_of_lt hab)
      have hne : ¬ a.length = 0 := by omega
      simp only [hab, if_true, hne, if_false, levenshteinJS_eq_levRec]
      rw [← Nat.cast_max, hm]
    · have hm : max a.length b.length = b.length := Nat.max_eq_right (by omega)
      have hne : ¬ b.length = 0 := by omega
      simp only [hab, if_false, hne, if_true, levenshteinJS_eq_levRec, levRec_comm b a]
      rw [← Nat.cast_max, hm]
  · intro x
    rw [similarity]
    by_cases hx : x.length = 0
    · simp [hx]
    · have hgt : ¬ x.length > x.length := by omega
      simp only [hgt, if_false, hx, levenshteinJS_eq_levRec, levRec_self,
        Nat.cast_zero, sub_zero]
      rw [div_self]
      exact Nat.cast_ne_zero.mpr hx
  · rfl

/-- Witness for C4: the formula instance on the concrete pair (ab, b),
whose longer string is non-empty, and reflexivity at the concrete string
ab. -/
theorem C4_similarity_levenshtein_witness :
    (similarity "ab".data "b".data =
      ((max ("ab".data : Str).length ("b".data : Str).length : ℚ) -
        (levRec "ab".data "b".data : ℚ)) /
        (max ("ab".data : Str).length ("b".data : Str).length : ℚ)) ∧
    similarity "ab".data "ab".data = 1 :=
  ⟨C4_similarity_levenshtein.1 "ab".data "b".data (by decide),
   C4_similarity_levenshtein.2.1 "ab".data⟩

theorem similarity_self (x : Str) : similarity x x = 1 := by
  rw [similarity]
  by_cases hx : x.length = 0
  · simp [hx]
  · have hgt : ¬ x.length > x.length := by omega
    simp only [hgt, if_false, hx, levenshteinJS_eq_levRec, levRec_self,
      Nat.cast_zero, sub_zero]
    rw [div_self]
    exact Nat.cast_ne_zero.mpr hx

theorem getCachedFileContent_mono (fs : Fs) (q : Str) (cache : Str → Option Str)
    (p : Str) (c : Str) (hc : cache p = some c) (hne : c ≠ []) :
    (getCachedFileContent fs q cache).2 p = some c := by
  rw [getCachedFileContent]
  cases hq : cache q with
  | some cached =>
    dsimp only
    by_cases hcq : cached ≠ []
    · rw [if_pos hcq]
      exact hc
    · rw [if_neg hcq]
      have hcnil : cached = [] := by simpa using hcq
      cases hfq : fs q with
      | some content =>
        dsimp only
        by_cases hpq : p = q
        · exfalso
          rw [hpq, hq] at hc
          have hcc : cached = c := Option.some.inj hc
          exact hne (hcc ▸ hcnil)
        · simp [hpq, hc]
      | none => exact hc
  | none =>
    dsimp only
    cases hfq : fs q with
    | some content =>
      dsimp only
      by_cases hpq : p = q
      · exfalso
        rw [hpq, hq] at hc
        cases hc
      · simp [hpq, hc]
    | none => exact hc

theorem buildEntries_mono (fs : Fs) (repoPath : Str) :
    ∀ (comps : List ComponentInfo) (cache : Str → Option Str) (p : Str) (c : Str),
      cache p = some c → c ≠ [] →
      (buildEntries fs repoPath comps cache).2 p = some c := by
  intro comps
  induction comps with
  | nil => intro cache p c hc _; exact hc
  | cons comp rest ih =>
    intro cache p c hc hne
    rw [buildEntries]
    exact ih _ p c (getCachedFileContent_mono fs _ cache p c hc hne) hne

theorem analyzeComponentComplexity_mono {Ast : Type} (parseFn : Str → Bool → Option Ast)
    (extractFunctions : Ast → Str → List FuncInfo) (comp : ComponentInfo)
    (repoPath : Str) (fs : Fs) (cache : AnalysisCache Ast) :
    (∀ p c, cache.fileCache p = some c → c ≠ [] →
      (analyzeComponentComplexity parseFn extractFunctions comp repoPath fs cache).2.fileCache p
        = some c) ∧
    (∀ p a, cache.astCache p = some a →
      (analyzeComponentComplexity parseFn extractFunctions comp repoPath fs cache).2.astCache p
        = some a) := by
  rw [analyzeComponentComplexity]
  rcases hg : getCachedFileContent fs (pathJoin repoPath comp.path) cache.fileCache
    with ⟨content, fc⟩
  dsimp only
  constructor
  · intro p c hc hne
    have hfc : fc p = some c := by
      have hm := getCachedFileContent_mono fs (pathJoin repoPath comp.path) cache.fileCache p c hc hne
      rw [hg] at hm
      exact hm
    by_cases hcont : content = []
    · rw [if_pos hcont]
      exact hfc
    · rw [if_neg hcont]
      cases hast : cache.astCache (pathJoin repoPath comp.path) with
      | some ast => exact hfc
      | none =>
        cases hparse : parseFn content (jsEndsWith comp.path ['x']) with
        | some ast => exact hfc
        | none => exact hfc
  · intro p a ha
    by_cases hcont : content = []
    · rw [if_pos hcont]
      exact ha
    · rw [if_neg hcont]
      cases hast : cache.astCache (pathJoin repoPath comp.path) with
      | some ast => exact ha
      | none =>
        cases hparse : parseFn content (jsEndsWith comp.path ['x']) with
        | some ast =>
          dsimp only
          by_cases hpf : p = pathJoin repoPath comp.path
          · exfalso
            rw [hpf, hast] at ha
            cases ha
          · simp [hpf, ha]
        | none => exact ha

theorem calculateComplexity_mono {Ast : Type} (parseFn : Str → Bool → Option Ast)
    (extractFunctions : Ast → Str → List FuncInfo) :
    ∀ (comps : List ComponentInfo) (repoPath : Str) (fs : Fs) (cache : AnalysisCache Ast),
      (∀ p c, cache.fileCache p = some c → c ≠ [] →
        (calculateComplexity parseFn extractFunctions comps repoPath fs cache).2.fileCache p
          = some c) ∧
      (∀ p a, cache.astCache p = some a →
        (calculateComplexity parseFn extractFunctions comps repoPath fs cache).2.astCache p
          = some a) := by
  intro comps
  induction comps with
  | nil => intro repoPath fs cache; exact ⟨fun p c hc _ => hc, fun p a ha => ha⟩
  | cons comp rest ih =>
    intro repoPath fs cache
    rw [calculateComplexity]
    have hstep := analyzeComponentComplexity_mono parseFn extractFunctions comp repoPath fs cache
    have hrest := ih repoPath fs
      (analyzeComponentComplexity parseFn extractFunctions comp repoPath fs cache).2
    constructor
    · intro p c hc hne
      exact (hrest).1 p c (hstep.1 p c hc hne) hne
    · intro p a ha
      exact (hrest).2 p a (hstep.2 p a ha)

/-- C8 (amended).  The caches are module-global state: an analysis
invocation never removes entries - every non-empty file-cache entry and
every parsed-tree entry present before the invocation is still present,
unchanged, afterwards (and is therefore seen by any later invocation) - and
they are only emptied by an explicit clearAnalysisCache call, which no part
of the analyzer makes. -/
theorem C8_cache_monotone_amended {Ast : Type} (parseFn : Str → Bool → Option Ast)
    (extractFunctions : Ast → Str → List FuncInfo) (now : Str)
    (components : List ComponentInfo) (repoPath : Str) (fs : Fs)
    (cache : AnalysisCache Ast) :
    (∀ p c, cache.fileCache p = some c → c ≠ [] →
      (analyzeArchitecture parseFn extractFunctions now components repoPath fs
        cache).2.fileCache p = some c) ∧
    (∀ p a, cache.astCache p = some a →
      (analyzeArchitecture parseFn extractFunctions now components repoPath fs
        cache).2.astCache p = some a) ∧
    clearAnalysisCache cache = (emptyCache : AnalysisCache Ast) := by
  rw [analyzeArchitecture]
  dsimp only
  have hdup : ∀ p c, cache.fileCache p = some c → c ≠ [] →
      (detectDuplication components fs repoPath cache.fileCache).2 p = some c := by
    intro p c hc hne
    rw [detectDuplication]
    exact buildEntries_mono fs repoPath _ cache.fileCache p c hc hne
  have hcx := calculateComplexity_mono parseFn extractFunctions components repoPath fs
    { cache with fileCache := (detectDuplication components fs repoPath cache.fileCache).2 }
  refine ⟨?_, ?_, rfl⟩
  · intro p c hc hne
    exact hcx.1 p c (hdup p c hc hne) hne
  · intro p a ha
    exact hcx.2 p a ha

/-- Witness for C8 (amended): a pre-populated single-entry cache survives an
invocation on an empty catalog. -/
theorem C8_cache_monotone_witness :
    (analyzeArchitecture noParse noExtract "t".data [] "r".data (fun _ => none)
      (AnalysisCache.mk (fun p => if p = "z".data then some ['q'] else none)
        (fun _ => none))).2.fileCache "z".data = some ['q'] :=
  (C8_cache_monotone_amended noParse noExtract "t".data [] "r".data (fun _ => none)
    (AnalysisCache.mk (fun p => if p = "z".data then some ['q'] else none)
      (fun _ => none))).1 "z".data ['q'] (by decide) (by decide)

theorem detectDuplication_fst (components : List ComponentInfo) (fs : Fs) (repoPath : Str)
    (cache : Str → Option Str) :
    (detectDuplication components fs repoPath cache).1 =
      dupOuter (buildEntries fs repoPath (components.filter dupFilter) cache).1 0 [] := by
  rw [detectDuplication]

theorem analyzeArchitecture_duplication {Ast : Type} (parseFn : Str → Bool → Option Ast)
    (extractFunctions : Ast → Str → List FuncInfo) (now : Str)
    (components : List ComponentInfo) (repoPath : Str) (fs : Fs)
    (cache : AnalysisCache Ast) :
    (analyzeArchitecture parseFn extractFunctions now components repoPath fs
        cache).1.duplication =
      (detectDuplication components fs repoPath cache.fileCache).1 := by
  rw [analyzeArchitecture]

theorem dupOuter_identical_pair (e1 e2 : DupEntry)
    (hl : 10 ≤ e1.lines.length) (heq : e1.lines.length = e2.lines.length)
    (hh : e1.hash = e2.hash) (hc : e1.content = e2.content) :
    dupOuter [e1, e2] 0 [] = [mkDupInstance e1 e2 1] := by
  have h1 : ¬ (0 + 1 ≥ 100000) := by norm_num
  have h2 : ¬ (e1.lines.length < 10 ∨ e2.lines.length < 10) := by omega
  have h3 : ¬ ((min (e1.lines.length : ℚ) (e2.lines.length : ℚ)) /
      (max (e1.lines.length : ℚ) (e2.lines.length : ℚ)) < 1/2) := by
    rw [← heq, min_self, max_self, div_self]
    · norm_num
    · have : e1.lines.length ≠ 0 := by omega
      exact Nat.cast_ne_zero.mpr this
  have h4 : ¬ ((e1.hash - e2.hash).natAbs > 100000) := by
    rw [hh, sub_self]
    simp
  have h6 : similarity e1.content e2.content = 1 := by
    rw [hc]
    exact similarity_self _
  have h5 : similarity e1.content e2.content ≥ 85/100 := by
    rw [h6]
    norm_num
  simp only [dupOuter, dupInner, if_neg h1, if_neg h2, if_neg h3, if_neg h4, if_pos h5, h6,
    List.nil_append]
  rw [if_pos (show (1 : ℚ) ≥ 85/100 by norm_num)]

set_option maxRecDepth 100000 in
/-- C8.  The claim states that the content cache lives for exactly one
invocation.  In the source the caches are module-level Maps that
analyzeArchitecture never clears: after a first run the file cache still
holds the first run's content, and a second run on a changed filesystem
reuses the stale entry and returns a different duplication list than the
same run started on an empty cache - two runs do cross-contaminate. -/
theorem C8_cache_persistence_counterexample :
    (analyzeArchitecture noParse noExtract "t".data [c8CompA, c8CompB] "r".data c8Fs1
      emptyCache).2.fileCache (pathJoin "r".data "fa".data) = some tenLines ∧
    (analyzeArchitecture noParse noExtract "t".data [c8CompA, c8CompB] "r".data c8Fs2
        (analyzeArchitecture noParse noExtract "t".data [c8CompA, c8CompB] "r".data c8Fs1
          emptyCache).2).1.duplication ≠
      (analyzeArchitecture noParse noExtract "t".data [c8CompA, c8CompB] "r".data c8Fs2
        emptyCache).1.duplication := by
  constructor
  · decide
  · have hfresh : (analyzeArchitecture noParse noExtract "t".data [c8CompA, c8CompB] "r".data
        c8Fs2 emptyCache).1.duplication = [] := by
      rw [analyzeArchitecture_duplication, detectDuplication_fst]
      decide
    have hfilter : [c8CompA, c8CompB].filter dupFilter = [c8CompA, c8CompB] := by decide
    have hbe : (buildEntries c8Fs2 "r".data [c8CompA, c8CompB]
        (analyzeArchitecture noParse noExtract "t".data [c8CompA, c8CompB] "r".data c8Fs1
          emptyCache).2.fileCache).1 =
        [DupEntry.mk c8CompA tenLines (jsSplitNl tenLines) (hashCode tenLines),
         DupEntry.mk c8CompB tenLines (jsSplitNl tenLines) (hashCode tenLines)] := by
      decide
    have hstale : (analyzeArchitecture noParse noExtract "t".data [c8CompA, c8CompB] "r".data
        c8Fs2 (analyzeArchitecture noParse noExtract "t".data [c8CompA, c8CompB] "r".data
          c8Fs1 emptyCache).2).1.duplication =
        [mkDupInstance
          (DupEntry.mk c8CompA tenLines (jsSplitNl tenLines) (hashCode tenLines))
          (DupEntry.mk c8CompB tenLines (jsSplitNl tenLines) (hashCode tenLines)) 1] := by
      rw [analyzeArchitecture_duplication, detectDuplication_fst, hfilter, hbe]
      exact dupOuter_identical_pair _ _ (by decide) (by decide) rfl rfl
    rw [hstale, hfresh]
    simp

theorem getCachedFileContent_fst_consistent (fs : Fs) (cache : Str → Option Str)
    (h : cacheConsistent fs cache) (p : Str) :
    (getCachedFileContent fs p cache).1 = (fs p).getD [] := by
  rw [getCachedFileContent]
  cases hq : cache p with
  | some cached =>
    dsimp only
    have hfp : fs p = some cached := h p cached hq
    by_cases hne : cached ≠ []
    · rw [if_pos hne, hfp]
      rfl
    · rw [if_neg hne, hfp]
      rfl
  | none =>
    dsimp only
    cases hfq : fs p with
    | some content => rfl
    | none => rfl

theorem getCachedFileContent_snd_consistent (fs : Fs) (cache : Str → Option Str)
    (h : cacheConsistent fs cache) (p : Str) :
    cacheConsistent fs (getCachedFileContent fs p cache).2 := by
  rw [getCachedFileContent]
  have hread : cacheConsistent fs
      (match fs p with
        | some content => (content, fun q => if q = p then some content else cache q)
        | none => (([] : Str), cache)).2 := by
    cases hfq : fs p with
    | some content =>
      intro q c hqc
      by_cases hqp : q = p
      · subst hqp
        simp only [if_pos rfl] at hqc
        rw [hfq]
        exact hqc
      · simp only [if_neg hqp] at hqc
        exact h q c hqc
    | none => exact h
  cases hq : cache p with
  | some cached =>
    dsimp only
    by_cases hne : cached ≠ []
    · rw [if_pos hne]; exact h
    · rw [if_neg hne]; exact hread
  | none =>
    dsimp only
    exact hread

theorem buildEntries_fst_pure (fs : Fs) (repoPath : Str) :
    ∀ (comps : List ComponentInfo) (cache : Str → Option Str),
      cacheConsistent fs cache →
      (buildEntries fs repoPath comps cache).1 = comps.map (pureEntry fs repoPath) ∧
      cacheConsistent fs (buildEntries fs repoPath comps cache).2 := by
  intro comps
  induction comps with
  | nil => intro cache h; exact ⟨rfl, h⟩
  | cons c rest ih =>
    intro cache h
    rw [buildEntries]
    have hfst := getCachedFileContent_fst_consistent fs cache h (pathJoin repoPath c.path)
    have hsnd := getCachedFileContent_snd_consistent fs cache h (pathJoin repoPath c.path)
    rcases ih (getCachedFileContent fs (pathJoin repoPath c.path) cache).2 hsnd with ⟨h1, h2⟩
    constructor
    · rw [List.map_cons]
      dsimp only
      rw [h1, hfst]
      rfl
    · exact h2

theorem dupInner_result_mem (a : DupEntry) :
    ∀ (rest : List DupEntry) (comparisons : Nat) (instances : List DuplicationInstance)
      (r : List DuplicationInstance),
      (dupInner a rest comparisons instances = .error r ∨
        ∃ c1, dupInner a rest comparisons instances = .ok (c1, r)) →
      ∀ inst ∈ r, inst ∈ instances ∨
        ∃ b ∈ rest, 10 ≤ a.lines.length ∧ 10 ≤ b.lines.length ∧
          inst = mkDupInstance a b (similarity a.content b.content) := by
  intro rest
  induction rest with
  | nil =>
    intro comparisons instances r hr inst hinst
    rcases hr with hr | ⟨c1, hr⟩
    · rw [dupInner] at hr; cases hr
    · rw [dupInner] at hr
      injection hr with hr
      injection hr with _ hr
      subst hr
      exact Or.inl hinst
  | cons b rest ih =>
    intro comparisons instances r hr inst hinst
    rw [dupInner] at hr
    by_cases hcap : comparisons + 1 ≥ 100000
    · rw [if_pos hcap] at hr
      rcases hr with hr | ⟨c1, hr⟩
      · injection hr with hr
        subst hr
        exact Or.inl hinst
      · cases hr
    · rw [if_neg hcap] at hr
      by_cases hlines : a.lines.length < 10 ∨ b.lines.length < 10
      · rw [if_pos hlines] at hr
        rcases ih _ _ _ hr inst hinst with h | ⟨b2, hb2, h10a, h10b, heq⟩
        · exact Or.inl h
        · exact Or.inr ⟨b2, List.mem_cons_of_mem b hb2, h10a, h10b, heq⟩
      · rw [if_neg hlines] at hr
        push_neg at hlines
        by_cases hratio : ((min (a.lines.length : ℚ) (b.lines.length : ℚ)) /
            (max (a.lines.length : ℚ) (b.lines.length : ℚ)) < 1/2)
        · rw [if_pos hratio] at hr
          rcases ih _ _ _ hr inst hinst with h | ⟨b2, hb2, h10a, h10b, heq⟩
          · exact Or.inl h
          · exact Or.inr ⟨b2, List.mem_cons_of_mem b hb2, h10a, h10b, heq⟩
        · rw [if_neg hratio] at hr
          by_cases hhash : (a.hash - b.hash).natAbs > 100000
          · rw [if_pos hhash] at hr
            rcases ih _ _ _ hr inst hinst with h | ⟨b2, hb2, h10a, h10b, heq⟩
            · exact Or.inl h
            · exact Or.inr ⟨b2, List.mem_cons_of_mem b hb2, h10a, h10b, heq⟩
          · rw [if_neg hhash] at hr
            by_cases hsim : similarity a.content b.content ≥ 85/100
            · rw [if_pos hsim] at hr
              rcases ih _ _ _ hr inst hinst with h | ⟨b2, hb2, h10a, h10b, heq⟩
              · rcases List.mem_append.mp h with h | h
                · exact Or.inl h
                · rw [List.mem_singleton] at h
                  exact Or.inr ⟨b, List.mem_cons_self b rest, hlines.1, hlines.2, h⟩
              · exact Or.inr ⟨b2, List.mem_cons_of_mem b hb2, h10a, h10b, heq⟩
            · rw [if_neg hsim] at hr
              rcases ih _ _ _ hr inst hinst with h | ⟨b2, hb2, h10a, h10b, heq⟩
              · exact Or.inl h
              · exact Or.inr ⟨b2, List.mem_cons_of_mem b hb2, h10a, h10b, heq⟩

theorem dupOuter_result_mem :
    ∀ (entries : List DupEntry) (comparisons : Nat) (instances : List DuplicationInstance),
      ∀ inst ∈ dupOuter entries comparisons instances,
        inst ∈ instances ∨
          ∃ a b : DupEntry, a ∈ entries ∧ b ∈ entries ∧
            10 ≤ a.lines.length ∧ 10 ≤ b.lines.length ∧
            inst = mkDupInstance a b (similarity a.content b.content) := by
  intro entries
  induction entries with
  | nil => intro comparisons instances inst hinst; exact Or.inl hinst
  | cons a rest ih =>
    intro comparisons instances inst hinst
    rw [dupOuter] at hinst
    cases hr : dupInner a rest comparisons instances with
    | error r =>
      rw [hr] at hinst
      dsimp only at hinst
      rcases dupInner_result_mem a rest comparisons instances r (Or.inl hr) inst hinst with
        h | ⟨b, hb, h10a, h10b, heq⟩
      · exact Or.inl h
      · exact Or.inr ⟨a, b, List.mem_cons_self a rest, List.mem_cons_of_mem a hb, h10a, h10b, heq⟩
    | ok pr =>
      rcases pr with ⟨c1, i1⟩
      rw [hr] at hinst
      dsimp only at hinst
      rcases ih c1 i1 inst hinst with h | ⟨x, y, hx, hy, h10x, h10y, heq⟩
      · rcases dupInner_result_mem a rest comparisons instances i1 (Or.inr ⟨c1, hr⟩) inst h with
          h2 | ⟨b, hb, h10a, h10b, heq⟩
        · exact Or.inl h2
        · exact Or.inr ⟨a, b, List.mem_cons_self a rest, List.mem_cons_of_mem a hb,
            h10a, h10b, heq⟩
      · exact Or.inr ⟨x, y, List.mem_cons_of_mem a hx, List.mem_cons_of_mem a hy,
          h10x, h10y, heq⟩

theorem detectDuplication_snd (components : List ComponentInfo) (fs : Fs) (repoPath : Str)
    (cache : Str → Option Str) :
    (detectDuplication components fs repoPath cache).2 =
      (buildEntries fs repoPath (components.filter dupFilter) cache).2 := by
  rw [detectDuplication]

theorem analyzeArchitecture_complexity {Ast : Type} (parseFn : Str → Bool → Option Ast)
    (extractFunctions : Ast → Str → List FuncInfo) (now : Str)
    (components : List ComponentInfo) (repoPath : Str) (fs : Fs)
    (cache : AnalysisCache Ast) :
    (analyzeArchitecture parseFn extractFunctions now components repoPath fs
        cache).1.complexity =
      (calculateComplexity parseFn extractFunctions components repoPath fs
        { cache with
          fileCache := (detectDuplication components fs repoPath cache.fileCache).2 }).1 := by
  rw [analyzeArchitecture]

theorem analyzeComponentComplexity_mem {Ast : Type} (parseFn : Str → Bool → Option Ast)
    (extractFunctions : Ast → Str → List FuncInfo) (comp : ComponentInfo)
    (repoPath : Str) (fs : Fs) (cache : AnalysisCache Ast)
    (h : cacheConsistent fs cache.fileCache) :
    (∀ m ∈ (analyzeComponentComplexity parseFn extractFunctions comp repoPath fs cache).1,
      m.file = comp.path ∧ fs (pathJoin repoPath comp.path) ≠ none) ∧
    cacheConsistent fs
      (analyzeComponentComplexity parseFn extractFunctions comp repoPath fs cache).2.fileCache := by
  have hfst := getCachedFileContent_fst_consistent fs cache.fileCache h
    (pathJoin repoPath comp.path)
  have hsnd := getCachedFileContent_snd_consistent fs cache.fileCache h
    (pathJoin repoPath comp.path)
  rw [analyzeComponentComplexity]
  rcases hg : getCachedFileContent fs (pathJoin repoPath comp.path) cache.fileCache
    with ⟨content, fc⟩
  rw [hg] at hfst hsnd
  dsimp only at hfst hsnd ⊢
  by_cases hcont : content = []
  · rw [if_pos hcont]
    exact ⟨fun m hm => absurd hm (List.not_mem_nil m), hsnd⟩
  · rw [if_neg hcont]
    have hfs : fs (pathJoin repoPath comp.path) ≠ none := by
      intro hnone
      rw [hnone] at hfst
      exact hcont hfst
    have hmap : ∀ (ast : Ast) (m : ComplexityMetric),
        m ∈ (extractFunctions ast content).map (fun func =>
          ({ file := comp.path, function := func.name,
             cyclomaticComplexity := calculateCyclomaticComplexity func.body,
             cognitiveComplexity := calculateCognitiveComplexity func.body,
             linesOfCode := func.lines,
             score :=
               if calculateCyclomaticComplexity func.body > 20 ∨
                   calculateCognitiveComplexity func.body > 15 then .veryComplex
               else if calculateCyclomaticComplexity func.body > 10 ∨
                   calculateCognitiveComplexity func.body > 7 then .complex
               else if calculateCyclomaticComplexity func.body > 5 ∨
                   calculateCognitiveComplexity func.body > 3 then .moderate
               else .simple } : ComplexityMetric)) →
          m.file = comp.path ∧ fs (pathJoin repoPath comp.path) ≠ none := by
      intro ast m hm
      rcases List.mem_map.mp hm with ⟨func, _, hfunc⟩
      subst hfunc
      exact ⟨rfl, hfs⟩
    cases hast : cache.astCache (pathJoin repoPath comp.path) with
    | some ast =>
      dsimp only
      exact ⟨hmap ast, hsnd⟩
    | none =>
      cases hparse : parseFn content (jsEndsWith comp.path ['x']) with
      | some ast =>
        dsimp only
        exact ⟨hmap ast, hsnd⟩
      | none =>
        dsimp only
        exact ⟨fun m hm => absurd hm (List.not_mem_nil m), hsnd⟩

theorem calculateComplexity_mem {Ast : Type} (parseFn : Str → Bool → Option Ast)
    (extractFunctions : Ast → Str → List FuncInfo) :
    ∀ (comps : List ComponentInfo) (repoPath : Str) (fs : Fs) (cache : AnalysisCache Ast),
      cacheConsistent fs cache.fileCache →
      ∀ m ∈ (calculateComplexity parseFn extractFunctions comps repoPath fs cache).1,
        ∃ comp ∈ comps, m.file = comp.path ∧ fs (pathJoin repoPath comp.path) ≠ none := by
  intro comps
  induction comps with
  | nil =>
    intro repoPath fs cache _ m hm
    exact absurd hm (List.not_mem_nil m)
  | cons comp rest ih =>
    intro repoPath fs cache h m hm
    rw [calculateComplexity] at hm
    dsimp only at hm
    rcases List.mem_append.mp hm with hm | hm
    · rcases (analyzeComponentComplexity_mem parseFn extractFunctions comp repoPath fs cache
        h).1 m hm with ⟨hfile, hfs⟩
      exact ⟨comp, List.mem_cons_self comp rest, hfile, hfs⟩
    · rcases ih repoPath fs
        (analyzeComponentComplexity parseFn extractFunctions comp repoPath fs cache).2
        (analyzeComponentComplexity_mem parseFn extractFunctions comp repoPath fs cache h).2
        m hm with ⟨comp2, hc2, hfile, hfs⟩
      exact ⟨comp2, List.mem_cons_of_mem comp hc2, hfile, hfs⟩

/-- C9.  A component whose file cannot be read is treated as empty content
and produces no findings - no duplication instance mentions its path and no
complexity metric carries its path - while the analysis itself returns
normally for the whole catalog (the embedding is a total function; the
source absorbs the read failure in a try/catch). -/
theorem C9_unreadable_file_degrades {Ast : Type} (parseFn : Str → Bool → Option Ast)
    (extractFunctions : Ast → Str → List FuncInfo) (now : Str)
    (components : List ComponentInfo) (repoPath : Str) (fs : Fs) (c : ComponentInfo)
    (hmem : c ∈ components) (hun : fs (pathJoin repoPath c.path) = none) :
    (∀ inst ∈ (analyzeArchitecture parseFn extractFunctions now components repoPath fs
        (emptyCache : AnalysisCache Ast)).1.duplication, c.path ∉ inst.files) ∧
    (∀ m ∈ (analyzeArchitecture parseFn extractFunctions now components repoPath fs
        (emptyCache : AnalysisCache Ast)).1.complexity, m.file ≠ c.path) := by
  have hconsist : cacheConsistent fs (emptyCache : AnalysisCache Ast).fileCache := by
    intro p c2 hc2
    cases hc2
  have hBE := buildEntries_fst_pure fs repoPath (components.filter dupFilter)
    (emptyCache : AnalysisCache Ast).fileCache hconsist
  constructor
  · intro inst hinst hpath
    rw [analyzeArchitecture_duplication, detectDuplication_fst, hBE.1] at hinst
    rcases dupOuter_result_mem _ 0 [] inst hinst with h | ⟨a, b, ha, hb, h10a, h10b, heq⟩
    · exact absurd h (List.not_mem_nil inst)
    · subst heq
      simp only [mkDupInstance, List.mem_cons, List.not_mem_nil, or_false] at hpath
      have hshort : ∀ e : DupEntry,
          e ∈ (components.filter dupFilter).map (pureEntry fs repoPath) →
          c.path = e.component.path → e.lines.length = 1 := by
        intro e he hpe
        rcases List.mem_map.mp he with ⟨c2, _, hc2⟩
        subst hc2
        have hcp : c2.path = c.path := by
          rw [hpe]
          rfl
        rw [pureEntry]
        dsimp only
        rw [hcp, hun]
        rfl
      rcases hpath with hpa | hpb
      · have h1 := hshort a ha hpa
        omega
      · have h1 := hshort b hb hpb
        omega
  · intro m hm
    rw [analyzeArchitecture_complexity] at hm
    have hconsist2 : cacheConsistent fs
        ({ (emptyCache : AnalysisCache Ast) with
          fileCache := (detectDuplication components fs repoPath
            (emptyCache : AnalysisCache Ast).fileCache).2 } : AnalysisCache Ast).fileCache := by
      rw [detectDuplication_snd]
      exact hBE.2
    rcases calculateComplexity_mem parseFn extractFunctions components repoPath fs _
      hconsist2 m hm with ⟨comp, _, hfile, hfs⟩
    intro hmc
    apply hfs
    rw [← hfile, hmc]
    exact hun

/-- Witness for C9: a one-component catalog whose only file is unreadable. -/
theorem C9_unreadable_file_degrades_witness :
    (∀ inst ∈ (analyzeArchitecture noParse noExtract "t".data [c9Comp] "r".data
        (fun _ => none) (emptyCache : AnalysisCache Unit)).1.duplication,
      c9Comp.path ∉ inst.files) ∧
    (∀ m ∈ (analyzeArchitecture noParse noExtract "t".data [c9Comp] "r".data
        (fun _ => none) (emptyCache : AnalysisCache Unit)).1.complexity,
      m.file ≠ c9Comp.path) :=
  C9_unreadable_file_degrades noParse noExtract "t".data [c9Comp] "r".data
    (fun _ => none) c9Comp (List.mem_singleton.mpr rfl) rfl

theorem jsIncludes_mem_subset : ∀ (a b : Str), jsIncludes a b = true → ∀ x ∈ b, x ∈ a := by
  intro a
  induction a with
  | nil =>
    intro b hb x hx
    rw [jsIncludes] at hb
    have : b = [] := by
      cases b with
      | nil => rfl
      | cons y ys => simp [List.isPrefixOf] at hb
    subst this
    cases hx
  | cons ca rest ih =>
    intro b hb x hx
    rw [jsIncludes, Bool.or_eq_true] at hb
    rcases hb with hb | hb
    · have hpre : b <+: ca :: rest := List.isPrefixOf_iff_prefix.mp hb
      exact hpre.subset hx
    · exact List.mem_cons_of_mem ca (ih b hb x hx)

theorem dupFilter_shortComp (i : Nat) : dupFilter (shortComp i) = true := by
  rw [dupFilter, shortComp]
  have hnot : ∀ s : Str, '.' ∈ s → jsIncludes (List.replicate (i + 1) 'a') s = false := by
    intro s hdot
    cases hj : jsIncludes (List.replicate (i + 1) 'a') s with
    | false => rfl
    | true =>
      exfalso
      have := jsIncludes_mem_subset _ s hj '.' hdot
      rw [List.mem_replicate] at this
      exact absurd this.2 (by decide)
  rw [hnot ".test.".data (by decide), hnot ".spec.".data (by decide)]
  rfl

theorem capCatalog_filter : capCatalog.filter dupFilter = capCatalog := by
  rw [List.filter_eq_self]
  intro c hc
  rw [capCatalog] at hc
  rcases List.mem_append.mp hc with hc | hc
  · rcases List.mem_map.mp hc with ⟨i, _, hi⟩
    rw [← hi]
    exact dupFilter_shortComp i
  · simp only [List.mem_cons, List.not_mem_nil, or_false] at hc
    rcases hc with hc | hc <;> subst hc <;> decide

theorem capFs_shortComp (i : Nat) :
    capFs (pathJoin "r".data (shortComp i).path) = some ['x'] := by
  rw [capFs, shortComp, pathJoin]
  have h1 : ¬ (("r".data : Str) = []) := by decide
  rw [if_neg h1]
  dsimp only
  rw [List.replicate_succ]
  rw [if_neg (by intro h; injection h with _ h; injection h with _ h; injection h with h _; exact absurd h (by decide))]
  rw [if_neg (by intro h; injection h with _ h; injection h with _ h; injection h with h _; exact absurd h (by decide))]

theorem dupInner_short (a : DupEntry) (ha : a.lines.length < 10) :
    ∀ (rest : List DupEntry) (comparisons : Nat) (instances : List DuplicationInstance),
      dupInner a rest comparisons instances =
        if 1 ≤ rest.length ∧ comparisons + rest.length ≥ 100000 then .error instances
        else .ok (comparisons + rest.length, instances) := by
  intro rest
  induction rest with
  | nil =>
    intro comparisons instances
    rw [dupInner]
    rw [if_neg (by simp)]
    simp
  | cons b rest ih =>
    intro comparisons instances
    rw [dupInner]
    by_cases hcap : comparisons + 1 ≥ 100000
    · rw [if_pos hcap, if_pos (by simp only [List.length_cons]; omega)]
    · rw [if_neg hcap, if_pos (Or.inl ha), ih]
      by_cases htail : 1 ≤ rest.length ∧ comparisons + 1 + rest.length ≥ 100000
      · rw [if_pos htail, if_pos (by simp only [List.length_cons]; omega)]
      · rw [if_neg htail, if_neg (by simp only [List.length_cons]; omega)]
        have heq : comparisons + 1 + rest.length = comparisons + (rest.length + 1) := by omega
        rw [heq]
        simp

theorem dupOuter_allShort_cap :
    ∀ (shorts : List DupEntry) (t1 t2 : DupEntry) (comparisons : Nat)
      (instances : List DuplicationInstance),
      (∀ e ∈ shorts, e.lines.length < 10) →
      2 * 100000 + 2 ≤ 2 * comparisons + (shorts.length + 2) * (shorts.length + 1) →
      dupOuter (shorts ++ [t1, t2]) comparisons instances = instances := by
  intro shorts
  induction shorts with
  | nil =>
    intro t1 t2 comparisons instances _ hcap
    simp only [List.nil_append]
    rw [dupOuter, dupInner]
    simp only [List.length_nil] at hcap
    norm_num at hcap
    rw [if_pos (show comparisons + 1 ≥ 100000 by omega)]
  | cons s shorts ih =>
    intro t1 t2 comparisons instances hshort hcap
    rw [List.cons_append, dupOuter,
      dupInner_short s (hshort s (List.mem_cons_self s shorts))]
    have hlen : (shorts ++ [t1, t2]).length = shorts.length + 2 := by
      simp
    by_cases habort : 1 ≤ (shorts ++ [t1, t2]).length ∧
        comparisons + (shorts ++ [t1, t2]).length ≥ 100000
    · rw [if_pos habort]
    · rw [if_neg habort]
      dsimp only
      apply ih t1 t2 _ instances (fun e he => hshort e (List.mem_cons_of_mem s he))
      rw [hlen]
      have hexp : (shorts.length + 1 + 2) * (shorts.length + 1 + 1) =
          (shorts.length + 2) * (shorts.length + 1) + 2 * (shorts.length + 2) := by ring
      simp only [List.length_cons] at hcap
      omega

/-- C5.  The claim quantifies over every catalog, but the comparison cap
stops the pair loop at 100000 comparisons: on a catalog of 449 candidates
whose identical pair comes last (pair number 100576), the detector returns
no instance at all for that pair even though it is character-identical, ten
lines long, not test-marked and above the line threshold. -/
theorem C5_duplication_cap_counterexample :
    (detectDuplication capCatalog capFs "r".data (fun _ => none)).1 = [] ∧
    capFs (pathJoin "r".data capT1.path) = some tenLines ∧
    capFs (pathJoin "r".data capT2.path) = some tenLines ∧
    (jsSplitNl tenLines).length = 10 ∧
    dupFilter capT1 = true ∧ dupFilter capT2 = true ∧
    capT1 ∈ capCatalog ∧ capT2 ∈ capCatalog := by
  refine ⟨?_, by decide, by decide, by decide, by decide, by decide, ?_, ?_⟩
  · rw [detectDuplication_fst, capCatalog_filter]
    have hconsist : cacheConsistent capFs (fun _ => none) := by
      intro p c hc
      cases hc
    rw [(buildEntries_fst_pure capFs "r".data capCatalog (fun _ => none) hconsist).1]
    rw [capCatalog, List.map_append, List.map_map]
    have hshort : ∀ e ∈ (List.range 447).map (pureEntry capFs "r".data ∘ shortComp),
        e.lines.length < 10 := by
      intro e he
      rcases List.mem_map.mp he with ⟨i, _, hi⟩
      rw [← hi]
      show (pureEntry capFs "r".data (shortComp i)).lines.length < 10
      rw [pureEntry]
      dsimp only
      rw [capFs_shortComp i]
      decide
    rw [show List.map (pureEntry capFs "r".data) [capT1, capT2] =
        [pureEntry capFs "r".data capT1, pureEntry capFs "r".data capT2] from rfl]
    apply dupOuter_allShort_cap _ _ _ 0 [] hshort
    rw [List.length_map, List.length_range]
    norm_num
  · rw [capCatalog]
    exact List.mem_append.mpr (Or.inr (by decide))
  · rw [capCatalog]
    exact List.mem_append.mpr (Or.inr (by decide))

theorem dupInner_nocap (a : DupEntry) :
    ∀ (rest : List DupEntry) (comparisons : Nat) (instances : List DuplicationInstance),
      comparisons + rest.length < 100000 →
      dupInner a rest comparisons instances =
        .ok (comparisons + rest.length, instances ++ rest.filterMap (pairEmit a)) := by
  intro rest
  induction rest with
  | nil =>
    intro c i _
    rw [dupInner]
    simp
  | cons b rest ih =>
    intro c i hcap
    simp only [List.length_cons] at hcap
    have hcap2 : c + 1 + rest.length < 100000 := by omega
    have hstep : c + 1 + rest.length = c + (b :: rest).length := by
      simp only [List.length_cons]
      omega
    rw [dupInner, if_neg (show ¬ (c + 1 ≥ 100000) by omega)]
    by_cases h1 : a.lines.length < 10 ∨ b.lines.length < 10
    · have hemit : pairEmit a b = none := by
        rw [pairEmit, if_pos h1]
      rw [if_pos h1, ih _ _ hcap2, List.filterMap_cons, hemit, hstep]
    · rw [if_neg h1]
      by_cases h2 : ((min (a.lines.length : ℚ) (b.lines.length : ℚ)) /
          (max (a.lines.length : ℚ) (b.lines.length : ℚ)) < 1/2)
      · have hemit : pairEmit a b = none := by
          rw [pairEmit, if_neg h1, if_pos h2]
        rw [if_pos h2, ih _ _ hcap2, List.filterMap_cons, hemit, hstep]
      · rw [if_neg h2]
        by_cases h3 : (a.hash - b.hash).natAbs > 100000
        · have hemit : pairEmit a b = none := by
            rw [pairEmit, if_neg h1, if_neg h2, if_pos h3]
          rw [if_pos h3, ih _ _ hcap2, List.filterMap_cons, hemit, hstep]
        · rw [if_neg h3]
          dsimp only
          by_cases h4 : similarity a.content b.content ≥ 85/100
          · have hemit : pairEmit a b =
                some (mkDupInstance a b (similarity a.content b.content)) := by
              rw [pairEmit, if_neg h1, if_neg h2, if_neg h3]
              dsimp only
              rw [if_pos h4]
            rw [if_pos h4, ih _ _ hcap2, List.filterMap_cons, hemit, hstep]
            simp [List.append_assoc]
          · have hemit : pairEmit a b = none := by
              rw [pairEmit, if_neg h1, if_neg h2, if_neg h3]
              dsimp only
              rw [if_neg h4]
            rw [if_neg h4, ih _ _ hcap2, List.filterMap_cons, hemit, hstep]

theorem dupOuter_nocap :
    ∀ (entries : List DupEntry) (comparisons : Nat) (instances : List DuplicationInstance),
      comparisons + pairsCount entries < 100000 →
      dupOuter entries comparisons instances =
        instances ++ (allPairs entries).filterMap (fun ab => pairEmit ab.1 ab.2) := by
  intro entries
  induction entries with
  | nil =>
    intro c i _
    rw [dupOuter, allPairs]
    simp
  | cons a rest ih =>
    intro c i hcap
    rw [pairsCount] at hcap
    rw [dupOuter, dupInner_nocap a rest c i (by omega)]
    dsimp only
    rw [ih _ _ (by omega), allPairs, List.filterMap_append, List.filterMap_map]
    rw [List.append_assoc]
    rfl

theorem pairsCount_double_bound {α : Type} :
    ∀ l : List α, 2 * pairsCount l + l.length ≤ l.length * l.length := by
  intro l
  induction l with
  | nil => simp [pairsCount]
  | cons a rest ih =>
    rw [pairsCount, List.length_cons]
    have hexp : (rest.length + 1) * (rest.length + 1) =
        rest.length * rest.length + 2 * rest.length + 1 := by ring
    omega

theorem countP_filterMap {α β : Type} (f : α → Option β) (p : β → Bool) :
    ∀ l : List α, (l.filterMap f).countP p =
      l.countP (fun x => ((f x).map p).getD false) := by
  intro l
  induction l with
  | nil => rfl
  | cons a rest ih =>
    cases hf : f a with
    | none => simp [List.filterMap_cons, hf, List.countP_cons, ih]
    | some b => simp [List.filterMap_cons, hf, List.countP_cons, ih]

theorem allPairs_mem_parts {α : Type} :
    ∀ (L : List α) (x y : α), (x, y) ∈ allPairs L → x ∈ L ∧ y ∈ L := by
  intro L
  induction L with
  | nil => intro x y h; cases h
  | cons a rest ih =>
    intro x y h
    rw [allPairs] at h
    rcases List.mem_append.mp h with h | h
    · rcases List.mem_map.mp h with ⟨b, hb, hab⟩
      injection hab with h1 h2
      subst h1; subst h2
      exact ⟨List.mem_cons_self a rest, List.mem_cons_of_mem a hb⟩
    · rcases ih x y h with ⟨hx, hy⟩
      exact ⟨List.mem_cons_of_mem a hx, List.mem_cons_of_mem a hy⟩

theorem pairEmit_some_eq (a b : DupEntry) (inst : DuplicationInstance)
    (h : pairEmit a b = some inst) :
    inst = mkDupInstance a b (similarity a.content b.content) := by
  rw [pairEmit] at h
  split at h
  · cases h
  split at h
  · cases h
  split at h
  · cases h
  dsimp only at h
  split at h
  · exact (Option.some.inj h).symm
  · cases h

theorem pairEmit_identical (e1 e2 : DupEntry)
    (hl : 10 ≤ e1.lines.length) (heq : e1.lines.length = e2.lines.length)
    (hh : e1.hash = e2.hash) (hc : e1.content = e2.content) :
    pairEmit e1 e2 = some (mkDupInstance e1 e2 1) := by
  have h2 : ¬ (e1.lines.length < 10 ∨ e2.lines.length < 10) := by omega
  have h3 : ¬ ((min (e1.lines.length : ℚ) (e2.lines.length : ℚ)) /
      (max (e1.lines.length : ℚ) (e2.lines.length : ℚ)) < 1/2) := by
    rw [← heq, min_self, max_self, div_self]
    · norm_num
    · have hne : e1.lines.length ≠ 0 := by omega
      exact Nat.cast_ne_zero.mpr hne
  have h4 : ¬ ((e1.hash - e2.hash).natAbs > 100000) := by
    rw [hh, sub_self]
    simp
  have h6 : similarity e1.content e2.content = 1 := by
    rw [hc]
    exact similarity_self _
  rw [pairEmit, if_neg h2, if_neg h3, if_neg h4]
  dsimp only
  rw [h6, if_pos (show (1 : ℚ) ≥ 85/100 by norm_num)]

theorem pairsCount_lt_cap {α : Type} (l : List α) (h : l.length ≤ 447) :
    pairsCount l < 100000 := by
  have hb := pairsCount_double_bound l
  have hsq : l.length * l.length ≤ 447 * 447 := Nat.mul_le_mul h h
  omega

theorem nodup_key_eq {α β : Type} (key : α → β) :
    ∀ (L : List α), (L.map key).Nodup →
      ∀ x ∈ L, ∀ y ∈ L, key x = key y → x = y := by
  intro L
  induction L with
  | nil => intro _ x hx; cases hx
  | cons a rest ih =>
    intro hnd x hx y hy hk
    rw [List.map_cons, List.nodup_cons] at hnd
    rcases List.mem_cons.mp hx with hxa | hxr
    · rcases List.mem_cons.mp hy with hya | hyr
      · rw [hxa, hya]
      · exfalso
        apply hnd.1
        rw [← hxa, hk]
        exact List.mem_map_of_mem key hyr
    · rcases List.mem_cons.mp hy with hya | hyr
      · exfalso
        apply hnd.1
        rw [← hya, ← hk]
        exact List.mem_map_of_mem key hxr
      · exact ih hnd.2 x hxr y hyr hk

theorem nodup_decomp_not_mem {α β : Type} (key : α → β) (A B : List α) (c : α)
    (h : ((A ++ c :: B).map key).Nodup) : c ∉ A ∧ c ∉ B := by
  rw [List.map_append, List.map_cons, List.nodup_append] at h
  rcases h with ⟨_, hcB, hdisj⟩
  rw [List.nodup_cons] at hcB
  constructor
  · intro hc
    exact hdisj (List.mem_map_of_mem key hc) (List.mem_cons_self _ _)
  · intro hc
    exact hcB.1 (List.mem_map_of_mem key hc)

theorem countP_allPairs_unique {α : Type} (P : α × α → Bool) (x y : α) :
    ∀ (X Y Z : List α),
      (∀ a ∈ X ++ x :: (Y ++ y :: Z), ∀ b ∈ X ++ x :: (Y ++ y :: Z),
        P (a, b) = true → (a = x ∧ b = y) ∨ (a = y ∧ b = x)) →
      P (x, y) = true →
      x ∉ X → y ∉ X → y ∉ Y → x ∉ Y ++ y :: Z → y ∉ Z →
      (allPairs (X ++ x :: (Y ++ y :: Z))).countP P = 1 := by
  intro X
  induction X with
  | nil =>
    intro Y Z hP hxy hxX hyX hyY hxM hyZ
    rw [List.nil_append]
    rw [show allPairs (x :: (Y ++ y :: Z)) =
        (Y ++ y :: Z).map (fun b => (x, b)) ++ allPairs (Y ++ y :: Z) from rfl]
    rw [List.countP_append, List.countP_map]
    have hmemx : x ∈ x :: (Y ++ y :: Z) := List.mem_cons_self _ _
    have hA : (Y ++ y :: Z).countP (P ∘ fun b => (x, b)) = 1 := by
      rw [List.countP_append, List.countP_cons]
      have hY : Y.countP (P ∘ fun b => (x, b)) = 0 := by
        rw [List.countP_eq_zero]
        intro b hb hPb
        have hbL : b ∈ x :: (Y ++ y :: Z) :=
          List.mem_cons_of_mem _ (List.mem_append_left _ hb)
        rcases hP x hmemx b hbL hPb with ⟨_, hb2⟩ | ⟨_, hb2⟩
        · exact hyY (hb2 ▸ hb)
        · exact hxM (List.mem_append_left _ (hb2 ▸ hb))
      have hZ : Z.countP (P ∘ fun b => (x, b)) = 0 := by
        rw [List.countP_eq_zero]
        intro b hb hPb
        have hbL : b ∈ x :: (Y ++ y :: Z) :=
          List.mem_cons_of_mem _
            (List.mem_append_right _ (List.mem_cons_of_mem _ hb))
        rcases hP x hmemx b hbL hPb with ⟨_, hb2⟩ | ⟨_, hb2⟩
        · exact hyZ (hb2 ▸ hb)
        · exact hxM (List.mem_append_right _ (List.mem_cons_of_mem _ (hb2 ▸ hb)))
      have hy1 : (P ∘ fun b => (x, b)) y = true := hxy
      rw [hY, hZ, if_pos hy1]
    have hB : (allPairs (Y ++ y :: Z)).countP P = 0 := by
      rw [List.countP_eq_zero]
      intro ab hab hPab
      obtain ⟨a, b⟩ := ab
      obtain ⟨ha, hb⟩ := allPairs_mem_parts _ a b hab
      have haL : a ∈ x :: (Y ++ y :: Z) := List.mem_cons_of_mem _ ha
      have hbL : b ∈ x :: (Y ++ y :: Z) := List.mem_cons_of_mem _ hb
      rcases hP a haL b hbL hPab with ⟨ha2, _⟩ | ⟨_, hb2⟩
      · exact hxM (ha2 ▸ ha)
      · exact hxM (hb2 ▸ hb)
    rw [hA, hB]
  | cons w X' ih =>
    intro Y Z hP hxy hxX hyX hyY hxM hyZ
    rw [List.cons_append]
    rw [show allPairs (w :: (X' ++ x :: (Y ++ y :: Z))) =
        (X' ++ x :: (Y ++ y :: Z)).map (fun b => (w, b)) ++
          allPairs (X' ++ x :: (Y ++ y :: Z)) from rfl]
    rw [List.countP_append, List.countP_map]
    have hhead : (X' ++ x :: (Y ++ y :: Z)).countP (P ∘ fun b => (w, b)) = 0 := by
      rw [List.countP_eq_zero]
      intro b hb hPb
      have hwL : w ∈ w :: (X' ++ x :: (Y ++ y :: Z)) := List.mem_cons_self _ _
      have hbL : b ∈ w :: (X' ++ x :: (Y ++ y :: Z)) := List.mem_cons_of_mem _ hb
      rcases hP w hwL b hbL hPb with ⟨hw2, _⟩ | ⟨hw2, _⟩
      · apply hxX; rw [← hw2]; exact List.mem_cons_self _ _
      · apply hyX; rw [← hw2]; exact List.mem_cons_self _ _
    have htail : (allPairs (X' ++ x :: (Y ++ y :: Z))).countP P = 1 :=
      ih Y Z
        (fun a ha b hb hPab =>
          hP a (List.mem_cons_of_mem _ ha) b (List.mem_cons_of_mem _ hb) hPab)
        hxy
        (fun hx => hxX (List.mem_cons_of_mem _ hx))
        (fun hy => hyX (List.mem_cons_of_mem _ hy))
        hyY hxM hyZ
    rw [hhead, htail]

theorem dupOuter_unique_pair (E1 E2 E3 : List DupEntry) (e1 e2 : DupEntry)
    (hnodE : ((E1 ++ e1 :: (E2 ++ e2 :: E3)).map
      (fun e => e.component.path)).Nodup)
    (hcap : pairsCount (E1 ++ e1 :: (E2 ++ e2 :: E3)) < 100000)
    (hl1 : 10 ≤ e1.lines.length)
    (heql : e1.lines.length = e2.lines.length)
    (hh : e1.hash = e2.hash) (hc : e1.content = e2.content) :
    ((dupOuter (E1 ++ e1 :: (E2 ++ e2 :: E3)) 0 []).filter
      (fun inst => decide (inst.files = [e1.component.path, e2.component.path] ∨
        inst.files = [e2.component.path, e1.component.path]))).length = 1 ∧
    ∀ inst ∈ dupOuter (E1 ++ e1 :: (E2 ++ e2 :: E3)) 0 [],
      (inst.files = [e1.component.path, e2.component.path] ∨
        inst.files = [e2.component.path, e1.component.path]) →
      inst.similarity = 1 := by
  have hout := dupOuter_nocap (E1 ++ e1 :: (E2 ++ e2 :: E3)) 0 [] (by omega)
  rw [hout]
  have hassoc : E1 ++ e1 :: (E2 ++ e2 :: E3) = (E1 ++ e1 :: E2) ++ e2 :: E3 := by
    rw [List.append_assoc, List.cons_append]
  have hnodE2 : (((E1 ++ e1 :: E2) ++ e2 :: E3).map
      (fun e => e.component.path)).Nodup := by
    rw [← hassoc]; exact hnodE
  have hpos1 := nodup_decomp_not_mem (fun e : DupEntry => e.component.path)
    E1 (E2 ++ e2 :: E3) e1 hnodE
  have hpos2 := nodup_decomp_not_mem (fun e : DupEntry => e.component.path)
    (E1 ++ e1 :: E2) E3 e2 hnodE2
  have he1m : e1 ∈ E1 ++ e1 :: (E2 ++ e2 :: E3) :=
    List.mem_append_right _ (List.mem_cons_self _ _)
  have he2m : e2 ∈ E1 ++ e1 :: (E2 ++ e2 :: E3) :=
    List.mem_append_right _ (List.mem_cons_of_mem _
      (List.mem_append_right _ (List.mem_cons_self _ _)))
  have huniq := nodup_key_eq (fun e : DupEntry => e.component.path) _ hnodE
  have hu1 : ∀ a ∈ E1 ++ e1 :: (E2 ++ e2 :: E3),
      a.component.path = e1.component.path → a = e1 :=
    fun a ha hk => huniq a ha e1 he1m hk
  have hu2 : ∀ a ∈ E1 ++ e1 :: (E2 ++ e2 :: E3),
      a.component.path = e2.component.path → a = e2 :=
    fun a ha hk => huniq a ha e2 he2m hk
  have hyX : e2 ∉ E1 := fun h => hpos2.1 (List.mem_append_left _ h)
  have hyY : e2 ∉ E2 := fun h =>
    hpos2.1 (List.mem_append_right _ (List.mem_cons_of_mem _ h))
  have hP : ∀ a ∈ E1 ++ e1 :: (E2 ++ e2 :: E3),
      ∀ b ∈ E1 ++ e1 :: (E2 ++ e2 :: E3),
      (((pairEmit a b).map (fun i =>
          decide (i.files = [e1.component.path, e2.component.path] ∨
            i.files = [e2.component.path, e1.component.path]))).getD false) = true →
      (a = e1 ∧ b = e2) ∨ (a = e2 ∧ b = e1) := by
    intro a ha b hb hPab
    rcases hpe : pairEmit a b with _ | i
    · rw [hpe] at hPab
      simp at hPab
    · rw [hpe, Option.map_some', Option.getD_some] at hPab
      have hor := of_decide_eq_true hPab
      have hieq := pairEmit_some_eq a b i hpe
      have hfi : i.files = [a.component.path, b.component.path] := by
        rw [hieq]; rfl
      rw [hfi] at hor
      rcases hor with h | h
      · simp only [List.cons.injEq, and_true] at h
        exact Or.inl ⟨hu1 a ha h.1, hu2 b hb h.2⟩
      · simp only [List.cons.injEq, and_true] at h
        exact Or.inr ⟨hu2 a ha h.1, hu1 b hb h.2⟩
  have hxy : (((pairEmit e1 e2).map (fun i =>
      decide (i.files = [e1.component.path, e2.component.path] ∨
        i.files = [e2.component.path, e1.component.path]))).getD false) = true := by
    rw [pairEmit_identical e1 e2 hl1 heql hh hc, Option.map_some', Option.getD_some]
    exact decide_eq_true (Or.inl rfl)
  constructor
  · rw [List.nil_append, ← List.countP_eq_length_filter, countP_filterMap]
    exact countP_allPairs_unique _ e1 e2 E1 E2 E3 hP hxy hpos1.1 hyX hyY
      hpos1.2 hpos2.2
  · intro inst hmem hfiles
    rw [List.nil_append] at hmem
    obtain ⟨⟨a, b⟩, hab, hemit⟩ := List.mem_filterMap.mp hmem
    dsimp only at hemit
    obtain ⟨ha, hb⟩ := allPairs_mem_parts _ a b hab
    have hPab : (((pairEmit a b).map (fun i =>
        decide (i.files = [e1.component.path, e2.component.path] ∨
          i.files = [e2.component.path, e1.component.path]))).getD false) = true := by
      rw [hemit, Option.map_some', Option.getD_some]
      exact decide_eq_true hfiles
    rcases hP a ha b hb hPab with ⟨ha1, hb1⟩ | ⟨ha1, hb1⟩
    · rw [ha1, hb1] at hemit
      have hs := pairEmit_some_eq e1 e2 inst hemit
      rw [hs]
      show similarity e1.content e2.content = 1
      rw [hc]; exact similarity_self _
    · rw [ha1, hb1] at hemit
      have hs := pairEmit_some_eq e2 e1 inst hemit
      rw [hs]
      show similarity e2.content e1.content = 1
      rw [← hc]; exact similarity_self _

/-- C5 (amended).  The unqualified claim fails at the comparison cap (see
the counterexample); under the provisos the source imposes — the candidate
list (catalog entries with at least 10 linesOfCode and no test marker)
stays small enough that the 100000-comparison budget covers every pair, and
catalog paths are distinct so the pair is identified by its files — the
detector, run on a fresh cache, emits exactly one DuplicationInstance whose
files are the two components with character-identical, at-least-ten-line
contents, and every instance for that pair carries similarity 1. -/
theorem C5_duplication_identical_amended
    (l1 l2 l3 : List ComponentInfo) (c1 c2 : ComponentInfo)
    (fs : Fs) (repoPath content : Str)
    (hnodup : ((l1 ++ c1 :: (l2 ++ c2 :: l3)).map ComponentInfo.path).Nodup)
    (hf1 : dupFilter c1 = true) (hf2 : dupFilter c2 = true)
    (hsize : ((l1 ++ c1 :: (l2 ++ c2 :: l3)).filter dupFilter).length ≤ 447)
    (hc1 : fs (pathJoin repoPath c1.path) = some content)
    (hc2 : fs (pathJoin repoPath c2.path) = some content)
    (hlines : 10 ≤ (jsSplitNl content).length) :
    ((detectDuplication (l1 ++ c1 :: (l2 ++ c2 :: l3)) fs repoPath
        (fun _ => none)).1.filter
      (fun inst => decide (inst.files = [c1.path, c2.path] ∨
        inst.files = [c2.path, c1.path]))).length = 1 ∧
    ∀ inst ∈ (detectDuplication (l1 ++ c1 :: (l2 ++ c2 :: l3)) fs repoPath
        (fun _ => none)).1,
      (inst.files = [c1.path, c2.path] ∨ inst.files = [c2.path, c1.path]) →
      inst.similarity = 1 := by
  have hcons : cacheConsistent fs (fun _ => none) :=
    fun p c h => Option.noConfusion h
  have hbe := buildEntries_fst_pure fs repoPath
    ((l1 ++ c1 :: (l2 ++ c2 :: l3)).filter dupFilter) (fun _ => none) hcons
  have hfilter : (l1 ++ c1 :: (l2 ++ c2 :: l3)).filter dupFilter =
      l1.filter dupFilter ++ c1 ::
        (l2.filter dupFilter ++ c2 :: l3.filter dupFilter) := by
    simp [List.filter_append, List.filter_cons, hf1, hf2]
  have hentries : ((l1 ++ c1 :: (l2 ++ c2 :: l3)).filter dupFilter).map
      (pureEntry fs repoPath) =
      (l1.filter dupFilter).map (pureEntry fs repoPath) ++
        pureEntry fs repoPath c1 ::
          ((l2.filter dupFilter).map (pureEntry fs repoPath) ++
            pureEntry fs repoPath c2 ::
              (l3.filter dupFilter).map (pureEntry fs repoPath)) := by
    rw [hfilter]
    simp [List.map_append, List.map_cons]
  have hnodF : (((l1 ++ c1 :: (l2 ++ c2 :: l3)).filter dupFilter).map
      ComponentInfo.path).Nodup :=
    List.Nodup.sublist
      (List.Sublist.map ComponentInfo.path (List.filter_sublist _)) hnodup
  have hnodE : (((l1.filter dupFilter).map (pureEntry fs repoPath) ++
      pureEntry fs repoPath c1 ::
        ((l2.filter dupFilter).map (pureEntry fs repoPath) ++
          pureEntry fs repoPath c2 ::
            (l3.filter dupFilter).map (pureEntry fs repoPath))).map
      (fun e => e.component.path)).Nodup := by
    rw [← hentries, List.map_map]
    exact hnodF
  have hcap : pairsCount ((l1.filter dupFilter).map (pureEntry fs repoPath) ++
      pureEntry fs repoPath c1 ::
        ((l2.filter dupFilter).map (pureEntry fs repoPath) ++
          pureEntry fs repoPath c2 ::
            (l3.filter dupFilter).map (pureEntry fs repoPath))) < 100000 := by
    rw [← hentries]
    exact pairsCount_lt_cap _ (by rw [List.length_map]; exact hsize)
  have hl1 : 10 ≤ (pureEntry fs repoPath c1).lines.length := by
    show 10 ≤ (jsSplitNl ((fs (pathJoin repoPath c1.path)).getD [])).length
    rw [hc1]
    exact hlines
  have heql : (pureEntry fs repoPath c1).lines.length =
      (pureEntry fs repoPath c2).lines.length := by
    show (jsSplitNl ((fs (pathJoin repoPath c1.path)).getD [])).length =
      (jsSplitNl ((fs (pathJoin repoPath c2.path)).getD [])).length
    rw [hc1, hc2]
  have hh : (pureEntry fs repoPath c1).hash = (pureEntry fs repoPath c2).hash := by
    show hashCode ((fs (pathJoin repoPath c1.path)).getD []) =
      hashCode ((fs (pathJoin repoPath c2.path)).getD [])
    rw [hc1, hc2]
  have hcnt : (pureEntry fs repoPath c1).content =
      (pureEntry fs repoPath c2).content := by
    show (fs (pathJoin repoPath c1.path)).getD [] =
      (fs (pathJoin repoPath c2.path)).getD []
    rw [hc1, hc2]
  have hgoal := dupOuter_unique_pair
    ((l1.filter dupFilter).map (pureEntry fs repoPath))
    ((l2.filter dupFilter).map (pureEntry fs repoPath))
    ((l3.filter dupFilter).map (pureEntry fs repoPath))
    (pureEntry fs repoPath c1) (pureEntry fs repoPath c2)
    hnodE hcap hl1 heql hh hcnt
  rw [detectDuplication_fst, hbe.1, hentries]
  exact hgoal

theorem C5_duplication_identical_amended_witness :
    (([c8CompA, c8CompB].map ComponentInfo.path).Nodup ∧
      dupFilter c8CompA = true ∧ dupFilter c8CompB = true ∧
      ([c8CompA, c8CompB].filter dupFilter).length ≤ 447 ∧
      c8Fs1 (pathJoin "r".data c8CompA.path) = some tenLines ∧
      c8Fs1 (pathJoin "r".data c8CompB.path) = some tenLines ∧
      10 ≤ (jsSplitNl tenLines).length) ∧
    ((detectDuplication [c8CompA, c8CompB] c8Fs1 "r".data
        (fun _ => none)).1.filter
      (fun inst => decide (inst.files = [c8CompA.path, c8CompB.path] ∨
        inst.files = [c8CompB.path, c8CompA.path]))).length = 1 ∧
    ∀ inst ∈ (detectDuplication [c8CompA, c8CompB] c8Fs1 "r".data
        (fun _ => none)).1,
      (inst.files = [c8CompA.path, c8CompB.path] ∨
        inst.files = [c8CompB.path, c8CompA.path]) →
      inst.similarity = 1 :=
  ⟨⟨by decide, by decide, by decide, by decide, by decide, by decide,
      by decide⟩,
    C5_duplication_identical_amended [] [] [] c8CompA c8CompB c8Fs1 "r".data
      tenLines (by decide) (by decide) (by decide) (by decide) (by decide)
      (by decide) (by decide)⟩
